import Mathlib

/-!
# Verification of the Nodys call-signaling, voice-relay and client-audio core

Shallow embedding of the security- and correctness-critical parts of the
Nodys voice-chat repository:

* `src/server/server.py` — session gate (`require_auth`, `handle_request`),
  call signaling (`start_call`, `accept_call`, `decline_call`, `end_call`,
  `prune_stale_calls`, `cleanup_calls_for_user`), channel voice presence
  (`set_channel_voice_presence`, `get_channel_voice_participants`);
* `src/server/voice_server.py` — the UDP relay (`handle_packet`);
* `src/client/voice_client.py` — jitter buffer / playback callback.

Python dictionaries are modelled as association lists (`dget`/`dinsert`/
`derase` mirror `d.get`, `d[k] = v`, `d.pop(k, None)`), SQL tables as
association lists keyed like the table's primary key, timestamps as
integers (control plane) or rationals (client audio), and the database
predicates consumed by the signaling engine (`users`, `friends`,
`sessions`, online status) as explicit finite environments.
-/

namespace Nodys

/-! ## Association-list dictionaries (model of Python `dict`) -/

variable {K : Type} {V : Type} [DecidableEq K]

/-- `d.get k` / `d.get(k, default) is None` test: first binding of `k`. -/
def dget : List (K × V) → K → Option V
  | [], _ => none
  | (k', v) :: t, k => if k' = k then some v else dget t k

/-- `d[k] = v`: replace the first binding of `k`, or append a new one. -/
def dinsert : List (K × V) → K → V → List (K × V)
  | [], k, v => [(k, v)]
  | (k', v') :: t, k, v => if k' = k then (k, v) :: t else (k', v') :: dinsert t k v

/-- `d.pop(k, None)`: remove every binding of `k` (identical to removing
the single binding when keys are distinct, which all modelled states keep). -/
def derase : List (K × V) → K → List (K × V)
  | [], _ => []
  | (k', v) :: t, k => if k' = k then derase t k else (k', v) :: derase t k

/-- Distinctness of keys: what Python's `dict` guarantees by construction. -/
def NodupKeys (l : List (K × V)) : Prop := (l.map Prod.fst).Nodup

instance (l : List (K × V)) : Decidable (NodupKeys l) := by
  unfold NodupKeys; infer_instance

@[simp] theorem dget_nil (k : K) : dget ([] : List (K × V)) k = none := rfl

theorem dget_dinsert (l : List (K × V)) (k k' : K) (v : V) :
    dget (dinsert l k v) k' = if k' = k then some v else dget l k' := by
  induction l with
  | nil =>
    by_cases h : k' = k
    · subst h; simp [dinsert, dget]
    · simp [dinsert, dget, h, Ne.symm h]
  | cons e t ih =>
    obtain ⟨ek, ev⟩ := e
    by_cases hk : ek = k
    · subst hk
      by_cases hk' : k' = ek
      · subst hk'; simp [dinsert, dget]
      · simp [dinsert, dget, hk', Ne.symm hk']
    · by_cases hk' : k' = ek
      · subst hk'
        simp [dinsert, dget, hk, Ne.symm hk]
      · simp [dinsert, dget, hk, Ne.symm hk', ih]

@[simp] theorem dget_dinsert_self (l : List (K × V)) (k : K) (v : V) :
    dget (dinsert l k v) k = some v := by simp [dget_dinsert]

theorem dget_dinsert_ne (l : List (K × V)) {k k' : K} (v : V) (h : k' ≠ k) :
    dget (dinsert l k v) k' = dget l k' := by simp [dget_dinsert, h]

theorem dget_derase (l : List (K × V)) (k k' : K) :
    dget (derase l k) k' = if k' = k then none else dget l k' := by
  induction l with
  | nil =>
    by_cases h : k' = k <;> simp [derase, dget, h]
  | cons e t ih =>
    obtain ⟨ek, ev⟩ := e
    by_cases hk : ek = k
    · subst hk
      by_cases hk' : k' = ek
      · subst hk'; simp [derase, dget, ih]
      · simp [derase, dget, hk', Ne.symm hk', ih]
    · by_cases hk' : k' = ek
      · subst hk'
        simp [derase, dget, hk, Ne.symm hk]
      · simp [derase, dget, hk, Ne.symm hk', ih]

@[simp] theorem dget_derase_self (l : List (K × V)) (k : K) :
    dget (derase l k) k = none := by simp [dget_derase]

theorem dget_derase_ne (l : List (K × V)) {k k' : K} (h : k' ≠ k) :
    dget (derase l k) k' = dget l k' := by simp [dget_derase, h]

theorem mem_of_dget_eq_some {l : List (K × V)} {k : K} {v : V}
    (h : dget l k = some v) : (k, v) ∈ l := by
  induction l with
  | nil => simp [dget] at h
  | cons e t ih =>
    obtain ⟨ek, ev⟩ := e
    by_cases hk : ek = k
    · subst hk
      simp [dget] at h
      simp [h]
    · simp [dget, hk] at h
      exact List.mem_cons_of_mem _ (ih h)

theorem dget_eq_some_of_mem {l : List (K × V)} {k : K} {v : V}
    (hn : NodupKeys l) (h : (k, v) ∈ l) : dget l k = some v := by
  induction l with
  | nil => simp at h
  | cons e t ih =>
    obtain ⟨ek, ev⟩ := e
    unfold NodupKeys at hn
    rw [List.map_cons, List.nodup_cons] at hn
    have hn' : NodupKeys t := hn.2
    rcases List.mem_cons.mp h with h1 | h2
    · rw [Prod.mk.injEq] at h1
      obtain ⟨rfl, rfl⟩ := h1
      simp [dget]
    · have hk : ek ≠ k := by
        intro hek
        subst hek
        exact hn.1 (List.mem_map.mpr ⟨(ek, v), h2, rfl⟩)
      simp [dget, hk]
      exact ih hn' h2

theorem mem_derase {l : List (K × V)} {k : K} {e : K × V}
    (h : e ∈ derase l k) : e ∈ l := by
  induction l with
  | nil => simp [derase] at h
  | cons e' t ih =>
    obtain ⟨ek, ev⟩ := e'
    by_cases hk : ek = k
    · simp [derase, hk] at h
      exact List.mem_cons_of_mem _ (ih h)
    · simp [derase, hk] at h
      rcases h with h | h
      · simp [h]
      · exact List.mem_cons_of_mem _ (ih h)

theorem keys_derase_sublist (l : List (K × V)) (k : K) :
    ((derase l k).map Prod.fst).Sublist (l.map Prod.fst) := by
  induction l with
  | nil => simp [derase]
  | cons e t ih =>
    obtain ⟨ek, ev⟩ := e
    by_cases hk : ek = k
    · simp only [derase, hk, if_true, List.map_cons]
      exact ih.trans (List.sublist_cons_self _ _)
    · simp only [derase, hk, if_false, List.map_cons]
      exact ih.cons₂ _

theorem nodupKeys_derase {l : List (K × V)} (k : K) (h : NodupKeys l) :
    NodupKeys (derase l k) :=
  (keys_derase_sublist l k).nodup h

theorem keys_dinsert (l : List (K × V)) (k : K) (v : V) :
    (dinsert l k v).map Prod.fst =
      if k ∈ l.map Prod.fst then l.map Prod.fst else l.map Prod.fst ++ [k] := by
  induction l with
  | nil => simp [dinsert]
  | cons e t ih =>
    obtain ⟨ek, ev⟩ := e
    by_cases hk : ek = k
    · subst hk; simp [dinsert]
    · simp only [dinsert, if_neg hk, List.map_cons]
      rw [ih]
      by_cases hm : k ∈ t.map Prod.fst
      · simp [hm, Ne.symm hk]
      · simp [hm, Ne.symm hk]

theorem nodupKeys_dinsert {l : List (K × V)} (k : K) (v : V) (h : NodupKeys l) :
    NodupKeys (dinsert l k v) := by
  unfold NodupKeys at *
  rw [keys_dinsert]
  by_cases hm : k ∈ l.map Prod.fst
  · simpa [hm] using h
  · rw [if_neg hm, List.nodup_append]
    refine ⟨h, List.nodup_singleton k, ?_⟩
    intro x hx hx'
    rw [List.mem_singleton] at hx'
    exact hm (hx' ▸ hx)

end Nodys

namespace Nodys

/-! ## Call signaling engine (`src/server/server.py`) -/

abbrev Login := String

/-- `CALL_STALE_SEC = 25`. -/
def CALL_STALE_SEC : Int := 25

/-- `EVENT_MAX_PER_USER = 200` (the per-login deque's `maxlen`). -/
def EVENT_MAX_PER_USER : Nat := 200

/-- The event dictionaries pushed by the signaling code
(`{"type": ..., ...}` with their payload fields). -/
inductive Event where
  | incoming_call (from_user : Login)
  | call_accepted (by_user : Login) (with_user : Login)
  | call_started (with_user : Login)
  | call_declined (by_user : Login)
  | call_ended (with_user : Login) (by_user : Login)
  deriving DecidableEq, Repr

/-- An event together with the timestamp `push_event` stamps on it. -/
abbrev TimedEvent := Int × Event

/-- The shared mutable state of the signaling engine:
`active_calls`, `call_activity`, the `active_call_pairs` DB table
(keyed by the canonical `(min, max)` pair), and `pending_events`. -/
structure CallState where
  calls : List (Login × Login)
  activity : List (Login × Int)
  dbPairs : List ((Login × Login) × String)
  events : List (Login × List TimedEvent)
  deriving DecidableEq, Repr

/-- The read-only database facts the call operations consult
(`users`, `friends` tables and derived online status). -/
structure CallEnv where
  users : List Login
  friends : List (Login × Login)
  online : List Login
  deriving Repr

/-- `user_exists`: `SELECT 1 FROM users WHERE login=?`. -/
def user_exists (env : CallEnv) (login : Login) : Bool :=
  login ∈ env.users

/-- `are_friends`: guard clause plus the two-directional `friends` query. -/
def are_friends (env : CallEnv) (a b : Login) : Bool :=
  if a = "" ∨ b = "" ∨ a = b then false
  else (a, b) ∈ env.friends ∨ (b, a) ∈ env.friends

/-- `is_online`: derived presence read, abstracted to a membership test on
the set of logins whose session satisfies the online-window query. -/
def is_online (env : CallEnv) (login : Login) : Bool :=
  if login = "" then false else login ∈ env.online

/-- Lexicographic code-point comparison of character lists: the model of
Python's `<=` on strings (kernel-reducible, unlike `String.ltb`). -/
def lexLe : List Char → List Char → Bool
  | [], _ => true
  | _ :: _, [] => false
  | c :: cs, d :: ds =>
    if c.toNat < d.toNat then true
    else if d.toNat < c.toNat then false
    else lexLe cs ds

/-- Python `a <= b` on strings. -/
def strLe (a b : String) : Bool := lexLe a.toList b.toList

/-- Canonical order used by `_canon_call_pair`. -/
def canon_call_pair (a b : Login) : Login × Login :=
  if strLe a b then (a, b) else (b, a)

/-- `_db_set_call_pair` (upsert keyed on the canonical pair). -/
def db_set_call_pair (d : List ((Login × Login) × String)) (a b : Login)
    (status : String) : List ((Login × Login) × String) :=
  dinsert d (canon_call_pair a b) status

/-- `_db_remove_call_pair`. -/
def db_remove_call_pair (d : List ((Login × Login) × String)) (a b : Login) :
    List ((Login × Login) × String) :=
  derase d (canon_call_pair a b)

/-- Append to a `deque(maxlen=EVENT_MAX_PER_USER)`: drop from the left
when the queue is full. -/
def dequeAppend (q : List TimedEvent) (e : TimedEvent) : List TimedEvent :=
  if q.length < EVENT_MAX_PER_USER then q ++ [e] else q.drop 1 ++ [e]

/-- `push_event(login, event)` with the `ts` default it stamps. -/
def push_event (now : Int) (login : Login) (ev : Event)
    (events : List (Login × List TimedEvent)) : List (Login × List TimedEvent) :=
  if login = "" then events
  else dinsert events login (dequeAppend ((dget events login).getD []) (now, ev))

/-- Last recorded call activity, `float(call_activity.get(u, 0.0) or 0.0)`. -/
def activityOf (act : List (Login × Int)) (u : Login) : Int :=
  (dget act u).getD 0

/-- The staleness test of `prune_stale_calls`:
either side silent for more than `CALL_STALE_SEC`. -/
def staleAt (now : Int) (act : List (Login × Int)) (a b : Login) : Prop :=
  now - activityOf act a > CALL_STALE_SEC ∨ now - activityOf act b > CALL_STALE_SEC

instance (now : Int) (act : List (Login × Int)) (a b : Login) :
    Decidable (staleAt now act a b) := by unfold staleAt; infer_instance

/-- The stale-pair collection loop of `prune_stale_calls`: walk the
`active_calls` items, skipping a pair already `seen` in either
orientation, and collect those that satisfy the staleness test. -/
def collectStale (now : Int) (act : List (Login × Int)) :
    List (Login × Login) → List (Login × Login) → List (Login × Login)
  | [], _ => []
  | (a, b) :: rest, seen =>
    if (a, b) ∈ seen ∨ (b, a) ∈ seen then collectStale now act rest seen
    else if staleAt now act a b then
      (a, b) :: collectStale now act rest ((a, b) :: seen)
    else collectStale now act rest ((a, b) :: seen)

/-- The removal loop of `prune_stale_calls`: `active_calls.pop(a)`,
`active_calls.pop(b)` (resp. `call_activity`) for each stale pair. -/
def erasePairs {V : Type} (stale : List (Login × Login)) (c : List (Login × V)) :
    List (Login × V) :=
  stale.foldl (fun c p => derase (derase c p.1) p.2) c

/-- `_db_remove_call_pair` applied to each stale pair. -/
def removeDbPairs (stale : List (Login × Login))
    (d : List ((Login × Login) × String)) : List ((Login × Login) × String) :=
  stale.foldl (fun d p => db_remove_call_pair d p.1 p.2) d

/-- The notification loop of `prune_stale_calls`:
`call_ended {by_user: system}` to both sides of each stale pair. -/
def pushEndedEvents (now : Int) (stale : List (Login × Login))
    (e : List (Login × List TimedEvent)) : List (Login × List TimedEvent) :=
  stale.foldl (fun e p =>
    push_event now p.2 (.call_ended p.1 "system")
      (push_event now p.1 (.call_ended p.2 "system") e)) e

/-- `prune_stale_calls`: remove every stale pair from `active_calls`,
`call_activity` and the DB table, then notify both sides. -/
def prune_stale_calls (now : Int) (s : CallState) : CallState :=
  let stale := collectStale now s.activity s.calls []
  { calls := erasePairs stale s.calls
    activity := erasePairs stale s.activity
    dbPairs := removeDbPairs stale s.dbPairs
    events := pushEndedEvents now stale s.events }

/-- `start_call(from_user, to_user)`. Returns the `(ok, message)` pair of
the Python function together with the updated state. -/
def start_call (env : CallEnv) (now : Int) (from_user to_user : Login)
    (s : CallState) : (Bool × String) × CallState :=
  let s := prune_stale_calls now s
  if ¬ user_exists env to_user then ((false, "Пользователь не найден"), s)
  else if ¬ are_friends env from_user to_user then
    ((false, "Можно звонить только друзьям"), s)
  else if ¬ is_online env to_user then ((false, "Пользователь не в сети"), s)
  else if (dget s.calls from_user).isSome ∨ (dget s.calls to_user).isSome then
    ((false, "Пользователь занят"), s)
  else
    ((true, "ok"),
      { calls := dinsert (dinsert s.calls from_user to_user) to_user from_user
        activity := dinsert (dinsert s.activity from_user now) to_user now
        dbPairs := db_set_call_pair s.dbPairs from_user to_user "ringing"
        events := push_event now to_user (.incoming_call from_user) s.events })

/-- `mark_call_activity(user)`. -/
def mark_call_activity (now : Int) (user : Login) (s : CallState) : CallState :=
  if user = "" then s
  else if (dget s.calls user).isSome then
    { s with activity := dinsert s.activity user now }
  else s

/-- `accept_call(current_user, from_user)`. -/
def accept_call (now : Int) (current_user from_user : Login)
    (s : CallState) : Bool × CallState :=
  let s := prune_stale_calls now s
  if dget s.calls current_user ≠ some from_user then (false, s)
  else
    (true,
      { s with
        activity := dinsert (dinsert s.activity current_user now) from_user now
        dbPairs := db_set_call_pair s.dbPairs current_user from_user "active"
        events :=
          push_event now current_user (.call_started from_user)
            (push_event now from_user (.call_accepted current_user current_user)
              s.events) })

/-- `decline_call(current_user, from_user)`. -/
def decline_call (now : Int) (current_user from_user : Login)
    (s : CallState) : Bool × CallState :=
  let s := prune_stale_calls now s
  if dget s.calls current_user ≠ some from_user then (false, s)
  else
    (true,
      { calls := derase (derase s.calls current_user) from_user
        activity := derase (derase s.activity current_user) from_user
        dbPairs := db_remove_call_pair s.dbPairs current_user from_user
        events := push_event now from_user (.call_declined current_user) s.events })

/-- `end_call(current_user, with_user)`. -/
def end_call (now : Int) (current_user with_user : Login)
    (s : CallState) : Bool × CallState :=
  let s := prune_stale_calls now s
  if dget s.calls current_user ≠ some with_user then (false, s)
  else
    (true,
      { calls := derase (derase s.calls current_user) with_user
        activity := derase (derase s.activity current_user) with_user
        dbPairs := db_remove_call_pair s.dbPairs current_user with_user
        events := push_event now with_user (.call_ended current_user current_user) s.events })

/-- `cleanup_calls_for_user(user)` (no prune pre-pass in the source). -/
def cleanup_calls_for_user (now : Int) (user : Login) (s : CallState) : CallState :=
  match dget s.calls user with
  | none => s
  | some peer =>
    { calls := derase (derase s.calls user) peer
      activity := derase (derase s.activity user) peer
      dbPairs := db_remove_call_pair s.dbPairs user peer
      events := push_event now peer (.call_ended user user) s.events }

/-- The operations named by the one-call-per-login invariant claim. -/
inductive CallOp where
  | start (a b : Login)
  | accept (a b : Login)
  | decline (a b : Login)
  | endCall (a b : Login)
  | prune
  | cleanup (u : Login)
  deriving DecidableEq, Repr

/-- One dispatched operation, with the environment and clock it sees. -/
structure CallStep where
  env : CallEnv
  now : Int
  op : CallOp

/-- Run one operation, discarding its result value. -/
def runStep (s : CallState) (st : CallStep) : CallState :=
  match st.op with
  | .start a b => (start_call st.env st.now a b s).2
  | .accept a b => (accept_call st.now a b s).2
  | .decline a b => (decline_call st.now a b s).2
  | .endCall a b => (end_call st.now a b s).2
  | .prune => prune_stale_calls st.now s
  | .cleanup u => cleanup_calls_for_user st.now u s

/-- The empty initial call state of a freshly started server. -/
def initCallState : CallState := ⟨[], [], [], []⟩

/-- Run a finite sequence of operations from the empty state. -/
def runSteps (steps : List CallStep) : CallState :=
  steps.foldl runStep initCallState

/-! ### The one-call-per-login invariant -/

/-- Every binding `u ↦ p` of `active_calls` is mirrored by `p ↦ u`. -/
def SymPairs (c : List (Login × Login)) : Prop :=
  ∀ e ∈ c, dget c e.2 = some e.1

/-- No login is paired with itself. -/
def NoSelfPairs (c : List (Login × Login)) : Prop :=
  ∀ e ∈ c, e.1 ≠ e.2

/-- No empty login participates in a pair (guaranteed by the
`are_friends` guard on pair creation). -/
def NoEmptyLogins (c : List (Login × Login)) : Prop :=
  ∀ e ∈ c, e.1 ≠ "" ∧ e.2 ≠ ""

/-- Well-formedness of the `active_calls` dictionary. -/
def CallInv (s : CallState) : Prop :=
  NodupKeys s.calls ∧ SymPairs s.calls ∧ NoSelfPairs s.calls ∧
    NoEmptyLogins s.calls

instance (c : List (Login × Login)) : Decidable (SymPairs c) := by
  unfold SymPairs; infer_instance

instance (c : List (Login × Login)) : Decidable (NoSelfPairs c) := by
  unfold NoSelfPairs; infer_instance

instance (c : List (Login × Login)) : Decidable (NoEmptyLogins c) := by
  unfold NoEmptyLogins; infer_instance

instance (s : CallState) : Decidable (CallInv s) := by
  unfold CallInv; infer_instance

theorem symPairs_dget {c : List (Login × Login)} (hs : SymPairs c)
    {a b : Login} (h : dget c a = some b) : dget c b = some a :=
  hs (a, b) (mem_of_dget_eq_some h)

/-- All logins mentioned by a list of pairs. -/
def pairLogins (l : List (Login × Login)) : List Login :=
  l.foldr (fun p acc => p.1 :: p.2 :: acc) []

@[simp] theorem pairLogins_nil : pairLogins [] = [] := rfl

@[simp] theorem pairLogins_cons (p : Login × Login) (l : List (Login × Login)) :
    pairLogins (p :: l) = p.1 :: p.2 :: pairLogins l := rfl

theorem mem_pairLogins {x : Login} {l : List (Login × Login)} :
    x ∈ pairLogins l ↔ ∃ p ∈ l, x = p.1 ∨ x = p.2 := by
  induction l with
  | nil => simp
  | cons p t ih =>
    simp only [pairLogins_cons, List.mem_cons, ih]
    constructor
    · rintro (h | h | ⟨q, hq, hxq⟩)
      · exact ⟨p, Or.inl rfl, Or.inl h⟩
      · exact ⟨p, Or.inl rfl, Or.inr h⟩
      · exact ⟨q, Or.inr hq, hxq⟩
    · rintro ⟨q, hq | hq, hxq⟩
      · subst hq
        rcases hxq with h | h
        · exact Or.inl h
        · exact Or.inr (Or.inl h)
      · exact Or.inr (Or.inr ⟨q, hq, hxq⟩)

/-- Effect of the pair-removal fold of `prune_stale_calls` on lookups. -/
theorem dget_erasePairs {V : Type} (stale : List (Login × Login))
    (c0 : List (Login × V)) (x : Login) :
    dget (erasePairs stale c0) x =
      if x ∈ pairLogins stale then none else dget c0 x := by
  unfold erasePairs
  induction stale generalizing c0 with
  | nil => simp
  | cons p t ih =>
    rw [List.foldl_cons, ih]
    by_cases hx : x ∈ pairLogins t
    · simp [hx]
    · by_cases hx1 : x = p.1
      · subst hx1
        simp [hx, dget_derase]
      · by_cases hx2 : x = p.2
        · subst hx2
          simp [hx, dget_derase]
        · simp [hx, hx1, hx2, dget_derase_ne _ hx2, dget_derase_ne _ hx1]

theorem nodupKeys_erasePairs {V : Type} (stale : List (Login × Login))
    {c0 : List (Login × V)} (h : NodupKeys c0) :
    NodupKeys (erasePairs stale c0) := by
  unfold erasePairs
  induction stale generalizing c0 with
  | nil => simpa
  | cons p t ih =>
    rw [List.foldl_cons]
    exact ih (nodupKeys_derase _ (nodupKeys_derase _ h))

theorem mem_erasePairs {V : Type} {stale : List (Login × Login)}
    {c0 : List (Login × V)} {e : Login × V}
    (h : e ∈ erasePairs stale c0) : e ∈ c0 := by
  unfold erasePairs at h
  induction stale generalizing c0 with
  | nil => simpa using h
  | cons p t ih =>
    rw [List.foldl_cons] at h
    exact mem_derase (mem_derase (ih h))

theorem collectStale_mem {now : Int} {act : List (Login × Int)} :
    ∀ {l seen : List (Login × Login)} {p : Login × Login},
      p ∈ collectStale now act l seen → p ∈ l := by
  intro l
  induction l with
  | nil => intro seen p h; simp [collectStale] at h
  | cons q t ih =>
    intro seen p h
    obtain ⟨a, b⟩ := q
    unfold collectStale at h
    split at h
    · exact List.mem_cons_of_mem _ (ih h)
    · split at h
      · rcases List.mem_cons.mp h with h1 | h2
        · simp [h1]
        · exact List.mem_cons_of_mem _ (ih h2)
      · exact List.mem_cons_of_mem _ (ih h)

/-- Only pairs satisfying the staleness test are collected. -/
theorem collectStale_stale {now : Int} {act : List (Login × Int)} :
    ∀ {l seen : List (Login × Login)} {p : Login × Login},
      p ∈ collectStale now act l seen → staleAt now act p.1 p.2 := by
  intro l
  induction l with
  | nil => intro seen p h; simp [collectStale] at h
  | cons q t ih =>
    intro seen p h
    obtain ⟨a, b⟩ := q
    unfold collectStale at h
    split at h
    · exact ih h
    · split at h
      · rcases List.mem_cons.mp h with h1 | h2
        · subst h1; assumption
        · exact ih h2
      · exact ih h

/-- Every stale pair is collected in one of its two orientations. -/
theorem collectStale_complete {now : Int} {act : List (Login × Int)}
    {a b : Login} :
    ∀ (l seen : List (Login × Login)), (a, b) ∈ l → staleAt now act a b →
      (a, b) ∉ seen → (b, a) ∉ seen →
      (a, b) ∈ collectStale now act l seen ∨ (b, a) ∈ collectStale now act l seen := by
  intro l
  induction l with
  | nil => intro seen h; simp at h
  | cons q t ih =>
    intro seen hmem hstale hs1 hs2
    obtain ⟨qa, qb⟩ := q
    by_cases hq1 : (qa, qb) = (a, b)
    · rw [Prod.mk.injEq] at hq1
      obtain ⟨h1, h2⟩ := hq1
      subst h1; subst h2
      unfold collectStale
      rw [if_neg (by
        intro h
        rcases h with h | h
        · exact hs1 h
        · exact hs2 h)]
      rw [if_pos hstale]
      exact Or.inl (List.mem_cons_self _ _)
    · by_cases hq2 : (qa, qb) = (b, a)
      · rw [Prod.mk.injEq] at hq2
        obtain ⟨h1, h2⟩ := hq2
        subst h1; subst h2
        unfold collectStale
        rw [if_neg (by
          intro h
          rcases h with h | h
          · exact hs2 h
          · exact hs1 h)]
        have hstale' : staleAt now act qa qb := by
          unfold staleAt at hstale ⊢
          exact Or.symm hstale
        rw [if_pos hstale']
        exact Or.inr (List.mem_cons_self _ _)
      · have hmem' : (a, b) ∈ t := by
          rcases List.mem_cons.mp hmem with h | h
          · exact absurd h.symm hq1
          · exact h
        unfold collectStale
        by_cases hseen : (qa, qb) ∈ seen ∨ (qb, qa) ∈ seen
        · rw [if_pos hseen]
          exact ih _ hmem' hstale hs1 hs2
        · rw [if_neg hseen]
          have hns1 : (a, b) ∉ (qa, qb) :: seen := by
            intro h
            rcases List.mem_cons.mp h with h | h
            · exact hq1 h.symm
            · exact hs1 h
          have hns2 : (b, a) ∉ (qa, qb) :: seen := by
            intro h
            rcases List.mem_cons.mp h with h | h
            · exact hq2 h.symm
            · exact hs2 h
          by_cases hst : staleAt now act qa qb
          · rw [if_pos hst]
            rcases ih _ hmem' hstale hns1 hns2 with h | h
            · exact Or.inl (List.mem_cons_of_mem _ h)
            · exact Or.inr (List.mem_cons_of_mem _ h)
          · rw [if_neg hst]
            exact ih _ hmem' hstale hns1 hns2

/-- Pairs in the output were not in `seen`, in either orientation. -/
theorem collectStale_not_seen {now : Int} {act : List (Login × Int)} :
    ∀ {l seen : List (Login × Login)} {p : Login × Login},
      p ∈ collectStale now act l seen → p ∉ seen ∧ (p.2, p.1) ∉ seen := by
  intro l
  induction l with
  | nil => intro seen p h; simp [collectStale] at h
  | cons q t ih =>
    intro seen p h
    obtain ⟨a, b⟩ := q
    unfold collectStale at h
    by_cases hseen : (a, b) ∈ seen ∨ (b, a) ∈ seen
    · rw [if_pos hseen] at h
      exact ih h
    · rw [if_neg hseen] at h
      rw [not_or] at hseen
      by_cases hst : staleAt now act a b
      · rw [if_pos hst] at h
        rcases List.mem_cons.mp h with h1 | h2
        · subst h1
          exact ⟨hseen.1, hseen.2⟩
        · have := ih h2
          constructor
          · intro hc; exact this.1 (List.mem_cons_of_mem _ hc)
          · intro hc; exact this.2 (List.mem_cons_of_mem _ hc)
      · rw [if_neg hst] at h
        have := ih h
        constructor
        · intro hc; exact this.1 (List.mem_cons_of_mem _ hc)
        · intro hc; exact this.2 (List.mem_cons_of_mem _ hc)

/-- The collected stale pairs are pairwise distinct as unordered pairs. -/
theorem collectStale_pairwise (now : Int) (act : List (Login × Int)) :
    ∀ (l seen : List (Login × Login)),
      (collectStale now act l seen).Pairwise (fun p q => p ≠ q ∧ (q.2, q.1) ≠ p) := by
  intro l
  induction l with
  | nil => intro seen; simp [collectStale]
  | cons q t ih =>
    intro seen
    obtain ⟨a, b⟩ := q
    unfold collectStale
    by_cases hseen : (a, b) ∈ seen ∨ (b, a) ∈ seen
    · rw [if_pos hseen]; exact ih _
    · rw [if_neg hseen]
      by_cases hst : staleAt now act a b
      · rw [if_pos hst]
        refine List.Pairwise.cons ?_ (ih _)
        intro p hp
        have hns := collectStale_not_seen hp
        constructor
        · intro hc
          exact hns.1 (hc ▸ List.mem_cons_self _ _)
        · intro hc
          exact hns.2 (hc ▸ List.mem_cons_self _ _)
      · rw [if_neg hst]; exact ih _

/-! ### Effect of the prune notification loop on event queues -/

theorem dget_push_event_ne {now : Int} {l x : Login} {ev : Event}
    {e : List (Login × List TimedEvent)} (h : x ≠ l) :
    dget (push_event now l ev e) x = dget e x := by
  unfold push_event
  by_cases hl : l = ""
  · simp [hl]
  · rw [if_neg hl]
    exact dget_dinsert_ne _ _ h

theorem dget_push_event_self {now : Int} {l : Login} {ev : Event}
    {e : List (Login × List TimedEvent)} (h : l ≠ "") :
    dget (push_event now l ev e) l =
      some (dequeAppend ((dget e l).getD []) (now, ev)) := by
  unfold push_event
  rw [if_neg h, dget_dinsert_self]

/-- Logins outside all stale pairs keep their event queue. -/
theorem dget_pushEndedEvents_notMem (now : Int) {stale : List (Login × Login)}
    (e0 : List (Login × List TimedEvent)) {x : Login}
    (hx : x ∉ pairLogins stale) :
    dget (pushEndedEvents now stale e0) x = dget e0 x := by
  unfold pushEndedEvents
  induction stale generalizing e0 with
  | nil => simp
  | cons p t ih =>
    rw [pairLogins_cons] at hx
    simp only [List.mem_cons, not_or] at hx
    rw [List.foldl_cons, ih _ hx.2.2,
      dget_push_event_ne hx.2.1, dget_push_event_ne hx.1]

/-- A login appearing in exactly one stale pair receives exactly one
`call_ended {by_user: system}` naming the peer. -/
theorem dget_pushEndedEvents_single (now : Int) {s1 s2 : List (Login × Login)}
    {p : Login × Login} {a b : Login} (e0 : List (Login × List TimedEvent))
    (hp : p = (a, b) ∨ p = (b, a)) (h1 : a ∉ pairLogins s1)
    (h2 : a ∉ pairLogins s2) (hab : a ≠ b) (ha : a ≠ "") :
    dget (pushEndedEvents now (s1 ++ p :: s2) e0) a =
      some (dequeAppend ((dget e0 a).getD []) (now, .call_ended b "system")) := by
  unfold pushEndedEvents
  induction s1 generalizing e0 with
  | nil =>
    rw [List.nil_append, List.foldl_cons]
    have key : ∀ e, dget
        (push_event now p.2 (.call_ended p.1 "system")
          (push_event now p.1 (.call_ended p.2 "system") e)) a =
        some (dequeAppend ((dget e a).getD []) (now, .call_ended b "system")) := by
      intro e
      rcases hp with rfl | rfl
      · dsimp only
        rw [dget_push_event_ne hab, dget_push_event_self ha]
      · dsimp only
        rw [dget_push_event_self ha, dget_push_event_ne hab]
    have hrest : dget (s2.foldl (fun e p =>
        push_event now p.2 (.call_ended p.1 "system")
          (push_event now p.1 (.call_ended p.2 "system") e))
        (push_event now p.2 (.call_ended p.1 "system")
          (push_event now p.1 (.call_ended p.2 "system") e0))) a =
        dget (push_event now p.2 (.call_ended p.1 "system")
          (push_event now p.1 (.call_ended p.2 "system") e0)) a :=
      dget_pushEndedEvents_notMem now _ h2
    rw [hrest, key]
  | cons q t ih =>
    rw [pairLogins_cons] at h1
    simp only [List.mem_cons, not_or] at h1
    rw [List.cons_append, List.foldl_cons]
    rw [ih _ h1.2.2, dget_push_event_ne h1.2.1, dget_push_event_ne h1.1]

/-! ### Preservation of the invariant by each operation -/

theorem are_friends_facts {env : CallEnv} {a b : Login}
    (h : are_friends env a b = true) : a ≠ "" ∧ b ≠ "" ∧ a ≠ b := by
  unfold are_friends at h
  by_cases hc : a = "" ∨ b = "" ∨ a = b
  · rw [if_pos hc] at h; exact absurd h (by simp)
  · push_neg at hc
    exact hc

theorem mem_dinsert {K V : Type} [DecidableEq K]
    {l : List (K × V)} {k : K} {v : V} {e : K × V}
    (h : e ∈ dinsert l k v) : e = (k, v) ∨ e ∈ l := by
  induction l with
  | nil =>
    rw [show dinsert ([] : List (K × V)) k v = [(k, v)] from rfl] at h
    exact Or.inl (List.mem_singleton.mp h)
  | cons e' t ih =>
    obtain ⟨ek, ev⟩ := e'
    by_cases hk : ek = k
    · have h' : e ∈ (k, v) :: t := by simpa [dinsert, hk] using h
      rcases List.mem_cons.mp h' with h1 | h2
      · exact Or.inl h1
      · exact Or.inr (List.mem_cons_of_mem _ h2)
    · have h' : e ∈ (ek, ev) :: dinsert t k v := by
        simpa [dinsert, hk] using h
      rcases List.mem_cons.mp h' with h1 | h2
      · exact Or.inr (h1 ▸ List.mem_cons_self _ _)
      · rcases ih h2 with h3 | h3
        · exact Or.inl h3
        · exact Or.inr (List.mem_cons_of_mem _ h3)

/-- Lookup after the two-sided insertion of `start_call`. -/
theorem dget_insertPair (c : List (Login × Login)) {a b : Login}
    (hab : a ≠ b) (x : Login) :
    dget (dinsert (dinsert c a b) b a) x =
      if x = b then some a else if x = a then some b else dget c x := by
  by_cases hb : x = b
  · subst hb; simp
  · rw [dget_dinsert_ne _ _ hb, if_neg hb]
    by_cases ha : x = a
    · subst ha; simp
    · rw [dget_dinsert_ne _ _ ha, if_neg ha]

/-- Lookup after the two-sided removal of `decline_call`/`end_call`/
`cleanup_calls_for_user`. -/
theorem dget_erasePair {V : Type} (c : List (Login × V)) (a b x : Login) :
    dget (derase (derase c a) b) x =
      if x = a ∨ x = b then none else dget c x := by
  by_cases hb : x = b
  · subst hb; simp
  · rw [dget_derase_ne _ hb]
    by_cases ha : x = a
    · subst ha; simp
    · rw [dget_derase_ne _ ha, if_neg (by simp [ha, hb])]

/-- The calls dictionary stays well-formed after removing the two sides
of an existing pair. -/
theorem callsWF_removePair {c : List (Login × Login)}
    (hn : NodupKeys c) (hs : SymPairs c) (hns : NoSelfPairs c)
    (hne : NoEmptyLogins c) {cur w : Login} (hg : dget c cur = some w) :
    NodupKeys (derase (derase c cur) w) ∧ SymPairs (derase (derase c cur) w) ∧
      NoSelfPairs (derase (derase c cur) w) ∧
      NoEmptyLogins (derase (derase c cur) w) := by
  refine ⟨nodupKeys_derase _ (nodupKeys_derase _ hn), ?_, ?_, ?_⟩
  · intro e he
    have hec : e ∈ c := mem_derase (mem_derase he)
    have h1 : dget (derase (derase c cur) w) e.1 = some e.2 :=
      dget_eq_some_of_mem (nodupKeys_derase _ (nodupKeys_derase _ hn)) he
    rw [dget_erasePair] at h1
    by_cases hx : e.1 = cur ∨ e.1 = w
    · rw [if_pos hx] at h1; exact absurd h1 (by simp)
    · push_neg at hx
      rw [dget_erasePair]
      have hsym : dget c e.2 = some e.1 := hs e hec
      have hwc : dget c w = some cur := hs (cur, w) (mem_of_dget_eq_some hg)
      rw [if_neg ?_]
      · exact hsym
      · rintro (h2 | h2)
        · rw [h2] at hsym
          rw [hg] at hsym
          exact hx.2 ((Option.some.injEq .. ▸ hsym).symm)
        · rw [h2] at hsym
          rw [hwc] at hsym
          exact hx.1 ((Option.some.injEq .. ▸ hsym).symm)
  · intro e he
    exact hns e (mem_derase (mem_derase he))
  · intro e he
    exact hne e (mem_derase (mem_derase he))

theorem callInv_prune (now : Int) (s : CallState) (h : CallInv s) :
    CallInv (prune_stale_calls now s) := by
  obtain ⟨hn, hs, hns, hne⟩ := h
  unfold prune_stale_calls
  refine ⟨nodupKeys_erasePairs _ hn, ?_, ?_, ?_⟩
  · intro e he
    have hec : e ∈ s.calls := mem_erasePairs he
    have h1 : dget (erasePairs (collectStale now s.activity s.calls []) s.calls) e.1
        = some e.2 :=
      dget_eq_some_of_mem (nodupKeys_erasePairs _ hn) he
    rw [dget_erasePairs] at h1
    by_cases hx : e.1 ∈ pairLogins (collectStale now s.activity s.calls [])
    · rw [if_pos hx] at h1; exact absurd h1 (by simp)
    · rw [if_neg hx] at h1
      have hsym : dget s.calls e.2 = some e.1 := hs e hec
      have hy : e.2 ∉ pairLogins (collectStale now s.activity s.calls []) := by
        intro hy
        obtain ⟨p, hp, hyp⟩ := mem_pairLogins.mp hy
        have hpc : p ∈ s.calls := collectStale_mem hp
        have hp1 : dget s.calls p.1 = some p.2 := dget_eq_some_of_mem hn hpc
        have hp2 : dget s.calls p.2 = some p.1 := hs p hpc
        rcases hyp with hyp | hyp
        · rw [← hyp] at hp1
          rw [hsym] at hp1
          exact hx (mem_pairLogins.mpr ⟨p, hp,
            Or.inr (Option.some.injEq .. ▸ hp1)⟩)
        · rw [← hyp] at hp2
          rw [hsym] at hp2
          exact hx (mem_pairLogins.mpr ⟨p, hp,
            Or.inl (Option.some.injEq .. ▸ hp2)⟩)
      rw [dget_erasePairs, if_neg hy]
      exact hsym
  · intro e he
    exact hns e (mem_erasePairs he)
  · intro e he
    exact hne e (mem_erasePairs he)

theorem callInv_start (env : CallEnv) (now : Int) (a b : Login) (s : CallState)
    (h : CallInv s) : CallInv (start_call env now a b s).2 := by
  have h₁ := callInv_prune now s h
  unfold start_call
  dsimp only
  split
  · exact h₁
  · split
    · exact h₁
    · split
      · exact h₁
      · split
        · exact h₁
        · next hex hfr hon hbusy =>
          obtain ⟨hn, hs, hns, hne⟩ := h₁
          rw [not_not] at hfr
          obtain ⟨hae, hbe, hab⟩ := are_friends_facts hfr
          push_neg at hbusy
          have hba : dget (prune_stale_calls now s).calls a = none := by
            cases hga : dget (prune_stale_calls now s).calls a with
            | none => rfl
            | some v => rw [hga] at hbusy; simp at hbusy
          have hbb : dget (prune_stale_calls now s).calls b = none := by
            cases hgb : dget (prune_stale_calls now s).calls b with
            | none => rfl
            | some v => rw [hgb] at hbusy; simp at hbusy
          refine ⟨nodupKeys_dinsert _ _ (nodupKeys_dinsert _ _ hn), ?_, ?_, ?_⟩
          · intro e he
            rcases mem_dinsert he with he1 | he2
            · subst he1
              rw [dget_insertPair _ hab]
              simp [Ne.symm hab]
            · rcases mem_dinsert he2 with he3 | he4
              · subst he3
                rw [dget_insertPair _ hab]
                simp
              · have hsym : dget (prune_stale_calls now s).calls e.2 = some e.1 :=
                  hs e he4
                rw [dget_insertPair _ hab]
                have h2b : e.2 ≠ b := by
                  intro hc; rw [hc, hbb] at hsym; exact absurd hsym (by simp)
                have h2a : e.2 ≠ a := by
                  intro hc; rw [hc, hba] at hsym; exact absurd hsym (by simp)
                rw [if_neg h2b, if_neg h2a]
                exact hsym
          · intro e he
            rcases mem_dinsert he with he1 | he2
            · subst he1; exact Ne.symm hab
            · rcases mem_dinsert he2 with he3 | he4
              · subst he3; exact hab
              · exact hns e he4
          · intro e he
            rcases mem_dinsert he with he1 | he2
            · subst he1; exact ⟨hbe, hae⟩
            · rcases mem_dinsert he2 with he3 | he4
              · subst he3; exact ⟨hae, hbe⟩
              · exact hne e he4

theorem callInv_accept (now : Int) (a b : Login) (s : CallState)
    (h : CallInv s) : CallInv (accept_call now a b s).2 := by
  have h₁ := callInv_prune now s h
  unfold accept_call
  dsimp only
  split
  · exact h₁
  · exact h₁

theorem callInv_decline (now : Int) (a b : Login) (s : CallState)
    (h : CallInv s) : CallInv (decline_call now a b s).2 := by
  have h₁ := callInv_prune now s h
  unfold decline_call
  dsimp only
  split
  · exact h₁
  · next hg =>
    rw [not_not] at hg
    obtain ⟨hn, hs, hns, hne⟩ := h₁
    exact callsWF_removePair hn hs hns hne hg

theorem callInv_end (now : Int) (a b : Login) (s : CallState)
    (h : CallInv s) : CallInv (end_call now a b s).2 := by
  have h₁ := callInv_prune now s h
  unfold end_call
  dsimp only
  split
  · exact h₁
  · next hg =>
    rw [not_not] at hg
    obtain ⟨hn, hs, hns, hne⟩ := h₁
    exact callsWF_removePair hn hs hns hne hg

theorem callInv_cleanup (now : Int) (u : Login) (s : CallState)
    (h : CallInv s) : CallInv (cleanup_calls_for_user now u s) := by
  unfold cleanup_calls_for_user
  cases hg : dget s.calls u with
  | none => exact h
  | some peer =>
    obtain ⟨hn, hs, hns, hne⟩ := h
    exact callsWF_removePair hn hs hns hne hg

theorem callInv_runStep (st : CallStep) (s : CallState) (h : CallInv s) :
    CallInv (runStep s st) := by
  obtain ⟨env, now, op⟩ := st
  cases op with
  | start a b => exact callInv_start env now a b s h
  | accept a b => exact callInv_accept now a b s h
  | decline a b => exact callInv_decline now a b s h
  | endCall a b => exact callInv_end now a b s h
  | prune => exact callInv_prune now s h
  | cleanup u => exact callInv_cleanup now u s h

theorem callInv_runSteps (steps : List CallStep) : CallInv (runSteps steps) := by
  unfold runSteps
  have : ∀ (l : List CallStep) (s : CallState), CallInv s →
      CallInv (l.foldl runStep s) := by
    intro l
    induction l with
    | nil => intro s h; exact h
    | cons st t ih =>
      intro s h
      exact ih _ (callInv_runStep st s h)
  exact this steps initCallState (by decide)

/-- A sample environment: two users `a`, `b` who are friends, `b` online. -/
def envAB : CallEnv := ⟨["a", "b"], [("a", "b")], ["b"]⟩

/-- C1: after any finite sequence of `start_call`, `accept_call`,
`decline_call`, `end_call`, `prune_stale_calls` and
`cleanup_calls_for_user` operations from the empty state, every login
present in `active_calls` has exactly one binding (distinct keys) and its
peer is mapped back to it. -/
theorem C1_one_call_per_login (steps : List CallStep) (a b : Login)
    (h : dget (runSteps steps).calls a = some b) :
    dget (runSteps steps).calls b = some a ∧
      NodupKeys (runSteps steps).calls := by
  obtain ⟨hn, hs, _, _⟩ := callInv_runSteps steps
  exact ⟨symPairs_dget hs h, hn⟩

theorem C1_one_call_per_login_witness :
    dget (runSteps [⟨envAB, 0, CallOp.start "a" "b"⟩]).calls "b" = some "a" ∧
      NodupKeys (runSteps [⟨envAB, 0, CallOp.start "a" "b"⟩]).calls :=
  C1_one_call_per_login [⟨envAB, 0, CallOp.start "a" "b"⟩] "a" "b" (by decide)

/-- C5: `start_call(a,b)` succeeds exactly when `b` exists, `a` and `b`
are friends, `b` is online, and neither side has a pair after the prune
pre-pass; on success it creates the Ringing pair, records fresh activity
timestamps for both, and enqueues exactly one `incoming_call` event for
`b` while `a`'s queue is untouched. -/
theorem C5_start_call_spec (env : CallEnv) (now : Int) (a b : Login)
    (s : CallState) :
    ((start_call env now a b s).1.1 = true ↔
      (user_exists env b = true ∧ are_friends env a b = true ∧
        is_online env b = true ∧
        dget (prune_stale_calls now s).calls a = none ∧
        dget (prune_stale_calls now s).calls b = none)) ∧
    ((start_call env now a b s).1.1 = true →
      dget (start_call env now a b s).2.calls a = some b ∧
      dget (start_call env now a b s).2.calls b = some a ∧
      dget (start_call env now a b s).2.activity a = some now ∧
      dget (start_call env now a b s).2.activity b = some now ∧
      dget (start_call env now a b s).2.dbPairs (canon_call_pair a b) =
        some "ringing" ∧
      (start_call env now a b s).2.events =
        push_event now b (.incoming_call a) (prune_stale_calls now s).events ∧
      dget (start_call env now a b s).2.events a =
        dget (prune_stale_calls now s).events a) := by
  unfold start_call
  dsimp only
  split
  · next hc =>
    refine ⟨⟨fun h => by simp at h, fun hrhs => ?_⟩, fun h => by simp at h⟩
    obtain ⟨h1, h2, h3, h4, h5⟩ := hrhs
    simp [h1, h2, h3, h4, h5] at hc
  · next hexn =>
    split
    · next hc =>
      refine ⟨⟨fun h => by simp at h, fun hrhs => ?_⟩, fun h => by simp at h⟩
      obtain ⟨h1, h2, h3, h4, h5⟩ := hrhs
      simp [h1, h2, h3, h4, h5] at hc
    · next hfrn =>
      split
      · next hc =>
        refine ⟨⟨fun h => by simp at h, fun hrhs => ?_⟩, fun h => by simp at h⟩
        obtain ⟨h1, h2, h3, h4, h5⟩ := hrhs
        simp [h1, h2, h3, h4, h5] at hc
      · next honn =>
        split
        · next hc =>
          refine ⟨⟨fun h => by simp at h, fun hrhs => ?_⟩, fun h => by simp at h⟩
          obtain ⟨h1, h2, h3, h4, h5⟩ := hrhs
          simp [h1, h2, h3, h4, h5] at hc
        · next hbusyn =>
          have hex : user_exists env b = true := by simpa using hexn
          have hfr : are_friends env a b = true := by simpa using hfrn
          have hon : is_online env b = true := by simpa using honn
          rw [not_or] at hbusyn
          obtain ⟨hba', hbb'⟩ := hbusyn
          have hba : dget (prune_stale_calls now s).calls a = none := by
            cases hga : dget (prune_stale_calls now s).calls a with
            | none => rfl
            | some v => rw [hga] at hba'; simp at hba'
          have hbb : dget (prune_stale_calls now s).calls b = none := by
            cases hgb : dget (prune_stale_calls now s).calls b with
            | none => rfl
            | some v => rw [hgb] at hbb'; simp at hbb'
          obtain ⟨hae, hbe, hab⟩ := are_friends_facts hfr
          refine ⟨⟨fun _ => ⟨hex, hfr, hon, hba, hbb⟩, fun _ => rfl⟩, fun _ => ?_⟩
          refine ⟨?_, ?_, ?_, ?_, ?_, rfl, ?_⟩
          · rw [dget_insertPair _ hab, if_neg hab, if_pos rfl]
          · rw [dget_insertPair _ hab, if_pos rfl]
          · rw [dget_dinsert_ne _ _ hab, dget_dinsert_self]
          · rw [dget_dinsert_self]
          · unfold db_set_call_pair
            rw [dget_dinsert_self]
          · exact dget_push_event_ne hab

theorem C5_start_call_spec_witness :
    dget (start_call envAB 0 "a" "b" initCallState).2.calls "a" = some "b" :=
  ((C5_start_call_spec envAB 0 "a" "b" initCallState).2 (by decide)).1

/-- C6 (amended): `accept_call(acceptor, caller)` against a non-existent
or mismatched pair is a no-op failure; it succeeds exactly when the
in-memory pair maps the acceptor to the caller — whether still Ringing or
already Active — and on success (re)marks the pair Active, refreshes both
activity timestamps, and enqueues `call_accepted` to the caller and
`call_started` to the acceptor. -/
theorem C6_accept_call_spec (now : Int) (acceptor caller : Login)
    (s : CallState) :
    ((accept_call now acceptor caller s).1 = true ↔
      dget (prune_stale_calls now s).calls acceptor = some caller) ∧
    ((accept_call now acceptor caller s).1 = false →
      (accept_call now acceptor caller s).2 = prune_stale_calls now s) ∧
    ((accept_call now acceptor caller s).1 = true →
      (accept_call now acceptor caller s).2.calls =
        (prune_stale_calls now s).calls ∧
      dget (accept_call now acceptor caller s).2.dbPairs
        (canon_call_pair acceptor caller) = some "active" ∧
      dget (accept_call now acceptor caller s).2.activity acceptor = some now ∧
      dget (accept_call now acceptor caller s).2.activity caller = some now ∧
      (accept_call now acceptor caller s).2.events =
        push_event now acceptor (.call_started caller)
          (push_event now caller (.call_accepted acceptor acceptor)
            (prune_stale_calls now s).events)) := by
  unfold accept_call
  dsimp only
  split
  · next hg =>
    refine ⟨⟨fun h => by simp at h, fun h => absurd h hg⟩,
      fun _ => rfl, fun h => by simp at h⟩
  · next hg =>
    rw [not_not] at hg
    refine ⟨⟨fun _ => hg, fun _ => rfl⟩, fun h => by simp at h, fun _ => ?_⟩
    refine ⟨rfl, ?_, ?_, ?_, rfl⟩
    · unfold db_set_call_pair
      rw [dget_dinsert_self]
    · by_cases hac : acceptor = caller
      · subst hac; rw [dget_dinsert_self]
      · rw [dget_dinsert_ne _ _ hac, dget_dinsert_self]
    · rw [dget_dinsert_self]

theorem C6_accept_call_spec_witness :
    dget (accept_call 11 "b" "a"
        (start_call envAB 10 "a" "b" initCallState).2).2.dbPairs
      (canon_call_pair "b" "a") = some "active" :=
  ((C6_accept_call_spec 11 "b" "a"
      (start_call envAB 10 "a" "b" initCallState).2).2.2 (by decide)).2.1

/-- C6 counterexample: accepting a second time — when the pair is already
Active and no Ringing pair exists — still succeeds, contradicting the
claim that `accept_call` succeeds only against a Ringing pair. -/
theorem C6_accept_call_counterexample :
    dget ((accept_call 11 "b" "a"
        (start_call envAB 10 "a" "b" initCallState).2).2).dbPairs ("a", "b") =
      some "active" ∧
    (accept_call 12 "b" "a"
        (accept_call 11 "b" "a"
          (start_call envAB 10 "a" "b" initCallState).2).2).1 = true := by
  decide

/-- C10: whenever `start_call`, `accept_call`, `decline_call` or
`end_call` returns a failure, the whole state (call map, activity map, DB
pair table and every event queue) is exactly the state left by the
`prune_stale_calls` pre-pass: a failed operation mutates nothing and
enqueues nothing. -/
theorem C10_failed_ops_atomic (env : CallEnv) (now : Int) (a b : Login)
    (s : CallState) :
    ((start_call env now a b s).1.1 = false →
      (start_call env now a b s).2 = prune_stale_calls now s) ∧
    ((accept_call now a b s).1 = false →
      (accept_call now a b s).2 = prune_stale_calls now s) ∧
    ((decline_call now a b s).1 = false →
      (decline_call now a b s).2 = prune_stale_calls now s) ∧
    ((end_call now a b s).1 = false →
      (end_call now a b s).2 = prune_stale_calls now s) := by
  refine ⟨?_, ?_, ?_, ?_⟩
  · unfold start_call
    dsimp only
    split
    · intro _; rfl
    · split
      · intro _; rfl
      · split
        · intro _; rfl
        · split
          · intro _; rfl
          · intro h; simp at h
  · unfold accept_call
    dsimp only
    split
    · intro _; rfl
    · intro h; simp at h
  · unfold decline_call
    dsimp only
    split
    · intro _; rfl
    · intro h; simp at h
  · unfold end_call
    dsimp only
    split
    · intro _; rfl
    · intro h; simp at h

theorem C10_failed_ops_atomic_witness :
    (accept_call 0 "a" "b" initCallState).2 = prune_stale_calls 0 initCallState :=
  (C10_failed_ops_atomic envAB 0 "a" "b" initCallState).2.1 (by decide)

/-! ### Behaviour of `prune_stale_calls` on well-formed states -/

theorem staleAt_symm {now : Int} {act : List (Login × Int)} {a b : Login}
    (h : staleAt now act a b) : staleAt now act b a := Or.symm h

/-- In a well-formed state, a collected stale pair mentioning `a` can only
be `a`'s own pair, in one of its two orientations. -/
theorem stale_mention_unique {now : Int} {s : CallState} (h : CallInv s)
    {a b : Login} (hab : dget s.calls a = some b) {q : Login × Login}
    (hq : q ∈ collectStale now s.activity s.calls [])
    (hm : a = q.1 ∨ a = q.2) : q = (a, b) ∨ q = (b, a) := by
  obtain ⟨hn, hs, _, _⟩ := h
  have hqc : q ∈ s.calls := collectStale_mem hq
  have hq1 : dget s.calls q.1 = some q.2 := dget_eq_some_of_mem hn hqc
  have hq2 : dget s.calls q.2 = some q.1 := hs q hqc
  rcases hm with hm | hm
  · left
    have h2 : q.2 = b := by
      rw [← hm] at hq1
      rw [hab] at hq1
      exact (Option.some_inj.mp hq1).symm
    rw [Prod.ext_iff]
    exact ⟨hm.symm, h2⟩
  · right
    have h1 : q.1 = b := by
      rw [← hm] at hq2
      rw [hab] at hq2
      exact (Option.some_inj.mp hq2).symm
    rw [Prod.ext_iff]
    exact ⟨h1, hm.symm⟩

/-- If `a`'s pair is not stale, no collected stale pair mentions `a`. -/
theorem notMem_stale_of_notStale {now : Int} {s : CallState} (h : CallInv s)
    {a b : Login} (hab : dget s.calls a = some b)
    (hns : ¬ staleAt now s.activity a b) :
    a ∉ pairLogins (collectStale now s.activity s.calls []) := by
  intro hc
  obtain ⟨q, hq, hm⟩ := mem_pairLogins.mp hc
  have hst := collectStale_stale hq
  rcases stale_mention_unique h hab hq hm with rfl | rfl
  · exact hns hst
  · exact hns (staleAt_symm hst)

/-- Splitting the collected stale list around the unique pair of `a`. -/
theorem stale_decomp {now : Int} {s : CallState} (h : CallInv s)
    {a b : Login} (hab : dget s.calls a = some b)
    (hst : staleAt now s.activity a b) :
    ∃ s1 p s2, collectStale now s.activity s.calls [] = s1 ++ p :: s2 ∧
      (p = (a, b) ∨ p = (b, a)) ∧ a ∉ pairLogins s1 ∧ a ∉ pairLogins s2 ∧
      b ∉ pairLogins s1 ∧ b ∉ pairLogins s2 := by
  have hmem : (a, b) ∈ s.calls := mem_of_dget_eq_some hab
  have hba : dget s.calls b = some a := symPairs_dget h.2.1 hab
  have hor := collectStale_complete s.calls []
    hmem hst (List.not_mem_nil _) (List.not_mem_nil _)
  have key : ∀ p, (p = (a, b) ∨ p = (b, a)) →
      p ∈ collectStale now s.activity s.calls [] →
      ∃ s1 s2, collectStale now s.activity s.calls [] = s1 ++ p :: s2 ∧
        a ∉ pairLogins s1 ∧ a ∉ pairLogins s2 ∧
        b ∉ pairLogins s1 ∧ b ∉ pairLogins s2 := by
    intro p hp hpmem
    obtain ⟨s1, s2, hsplit⟩ := List.append_of_mem hpmem
    have hpw := collectStale_pairwise now s.activity s.calls []
    rw [hsplit] at hpw
    rw [List.pairwise_append] at hpw
    obtain ⟨-, hpw2, hrel⟩ := hpw
    rw [List.pairwise_cons] at hpw2
    have hrel1 : ∀ q ∈ s1, q ≠ p ∧ (p.2, p.1) ≠ q := by
      intro q hq
      exact hrel q hq p (List.mem_cons_self _ _)
    have hrel2 : ∀ q ∈ s2, p ≠ q ∧ (q.2, q.1) ≠ p := by
      intro q hq
      exact hpw2.1 q hq
    have hsub1 : ∀ q ∈ s1, q ∈ collectStale now s.activity s.calls [] := by
      intro q hq
      rw [hsplit]
      exact List.mem_append_left _ hq
    have hsub2 : ∀ q ∈ s2, q ∈ collectStale now s.activity s.calls [] := by
      intro q hq
      rw [hsplit]
      exact List.mem_append_right _ (List.mem_cons_of_mem _ hq)
    -- a and b cannot be mentioned by any pair in s1 or s2
    have hside : ∀ (q : Login × Login),
        q ∈ collectStale now s.activity s.calls [] →
        q ≠ p → (p.2, p.1) ≠ q → ∀ x, (x = a ∨ x = b) →
        ¬ (x = q.1 ∨ x = q.2) := by
      intro q hq hne hnsw x hx hmx
      have hqab : q = (a, b) ∨ q = (b, a) := by
        rcases hx with rfl | rfl
        · exact stale_mention_unique h hab hq hmx
        · rcases stale_mention_unique h hba hq hmx with h' | h'
          · exact Or.inr h'
          · exact Or.inl h'
      rcases hqab with rfl | rfl <;> rcases hp with rfl | rfl
      · exact hne rfl
      · exact hnsw rfl
      · exact hnsw rfl
      · exact hne rfl
    refine ⟨s1, s2, hsplit, ?_, ?_, ?_, ?_⟩
    · intro hc
      obtain ⟨q, hq, hm⟩ := mem_pairLogins.mp hc
      exact hside q (hsub1 q hq) (hrel1 q hq).1 (hrel1 q hq).2 a (Or.inl rfl) hm
    · intro hc
      obtain ⟨q, hq, hm⟩ := mem_pairLogins.mp hc
      refine hside q (hsub2 q hq) (Ne.symm (hrel2 q hq).1) ?_ a (Or.inl rfl) hm
      intro hc'
      apply (hrel2 q hq).2
      rw [← hc']
    · intro hc
      obtain ⟨q, hq, hm⟩ := mem_pairLogins.mp hc
      exact hside q (hsub1 q hq) (hrel1 q hq).1 (hrel1 q hq).2 b (Or.inr rfl) hm
    · intro hc
      obtain ⟨q, hq, hm⟩ := mem_pairLogins.mp hc
      refine hside q (hsub2 q hq) (Ne.symm (hrel2 q hq).1) ?_ b (Or.inr rfl) hm
      intro hc'
      apply (hrel2 q hq).2
      rw [← hc']
  rcases hor with hpmem | hpmem
  · obtain ⟨s1, s2, hs', h1, h2, h3, h4⟩ := key _ (Or.inl rfl) hpmem
    exact ⟨s1, (a, b), s2, hs', Or.inl rfl, h1, h2, h3, h4⟩
  · obtain ⟨s1, s2, hs', h1, h2, h3, h4⟩ := key _ (Or.inr rfl) hpmem
    exact ⟨s1, (b, a), s2, hs', Or.inr rfl, h1, h2, h3, h4⟩

/-- A stale pair's side is removed and notified. -/
theorem prune_removed_side (now : Int) {s : CallState} (h : CallInv s)
    {a b : Login} (hab : dget s.calls a = some b)
    (hst : staleAt now s.activity a b) :
    dget (prune_stale_calls now s).calls a = none ∧
    dget (prune_stale_calls now s).events a =
      some (dequeAppend ((dget s.events a).getD [])
        (now, .call_ended b "system")) := by
  obtain ⟨s1, p, s2, hsplit, hp, h1, h2, -, -⟩ := stale_decomp h hab hst
  have hmem : (a, b) ∈ s.calls := mem_of_dget_eq_some hab
  have hab' : a ≠ b := h.2.2.1 (a, b) hmem
  have hae : a ≠ "" := (h.2.2.2 (a, b) hmem).1
  constructor
  · show dget (erasePairs (collectStale now s.activity s.calls []) s.calls) a = none
    rw [dget_erasePairs, if_pos]
    rw [hsplit]
    apply mem_pairLogins.mpr
    refine ⟨p, List.mem_append_right _ (List.mem_cons_self _ _), ?_⟩
    rcases hp with rfl | rfl
    · exact Or.inl rfl
    · exact Or.inr rfl
  · show dget (pushEndedEvents now (collectStale now s.activity s.calls [])
      s.events) a = _
    rw [hsplit]
    exact dget_pushEndedEvents_single now s.events hp h1 h2 hab' hae

theorem canon_call_pair_cases {x y a b : Login}
    (h : canon_call_pair x y = canon_call_pair a b) :
    (x = a ∧ y = b) ∨ (x = b ∧ y = a) := by
  unfold canon_call_pair at h
  split at h <;> split at h <;> rw [Prod.mk.injEq] at h <;> tauto

theorem dget_removeDbPairs_notMem {stale : List (Login × Login)}
    {d : List ((Login × Login) × String)} {key : Login × Login}
    (h : ∀ p ∈ stale, canon_call_pair p.1 p.2 ≠ key) :
    dget (removeDbPairs stale d) key = dget d key := by
  unfold removeDbPairs
  induction stale generalizing d with
  | nil => rfl
  | cons p t ih =>
    rw [List.foldl_cons]
    rw [ih (fun q hq => h q (List.mem_cons_of_mem _ hq))]
    unfold db_remove_call_pair
    exact dget_derase_ne _ (Ne.symm (h p (List.mem_cons_self _ _)))

theorem collectStale_nil_of_none {now : Int} {act : List (Login × Int)}
    {l : List (Login × Login)}
    (h : ∀ p ∈ l, ¬ staleAt now act p.1 p.2) :
    ∀ seen, collectStale now act l seen = [] := by
  induction l with
  | nil => intro seen; rfl
  | cons q t ih =>
    intro seen
    obtain ⟨a, b⟩ := q
    unfold collectStale
    have hns : ¬ staleAt now act a b := h (a, b) (List.mem_cons_self _ _)
    have ht : ∀ p ∈ t, ¬ staleAt now act p.1 p.2 :=
      fun p hp => h p (List.mem_cons_of_mem _ hp)
    by_cases hseen : (a, b) ∈ seen ∨ (b, a) ∈ seen
    · rw [if_pos hseen]
      exact ih ht _
    · rw [if_neg hseen, if_neg hns]
      exact ih ht _

theorem prune_eq_self_of_nil {now : Int} {s : CallState}
    (h : collectStale now s.activity s.calls [] = []) :
    prune_stale_calls now s = s := by
  unfold prune_stale_calls
  rw [h]
  rfl

/-- C7: `prune_stale_calls` removes every pair one of whose sides has been
silent for more than `CALL_STALE_SEC`, enqueues one
`call_ended {by_user: system}` to each of its two participants, leaves
non-stale pairs (their activity, events and DB row) untouched, and is
idempotent: an immediate second invocation is the identity. -/
theorem C7_prune_stale_spec (now : Int) (s : CallState) (h : CallInv s) :
    (∀ a b, dget s.calls a = some b → staleAt now s.activity a b →
      dget (prune_stale_calls now s).calls a = none ∧
      dget (prune_stale_calls now s).calls b = none ∧
      dget (prune_stale_calls now s).events a =
        some (dequeAppend ((dget s.events a).getD [])
          (now, .call_ended b "system")) ∧
      dget (prune_stale_calls now s).events b =
        some (dequeAppend ((dget s.events b).getD [])
          (now, .call_ended a "system"))) ∧
    (∀ a b, dget s.calls a = some b → ¬ staleAt now s.activity a b →
      dget (prune_stale_calls now s).calls a = some b ∧
      dget (prune_stale_calls now s).activity a = dget s.activity a ∧
      dget (prune_stale_calls now s).events a = dget s.events a ∧
      dget (prune_stale_calls now s).dbPairs (canon_call_pair a b) =
        dget s.dbPairs (canon_call_pair a b)) ∧
    prune_stale_calls now (prune_stale_calls now s) = prune_stale_calls now s := by
  refine ⟨?_, ?_, ?_⟩
  · intro a b hab hst
    have hba : dget s.calls b = some a := symPairs_dget h.2.1 hab
    obtain ⟨ha1, ha2⟩ := prune_removed_side now h hab hst
    obtain ⟨hb1, hb2⟩ := prune_removed_side now h hba (staleAt_symm hst)
    exact ⟨ha1, hb1, ha2, hb2⟩
  · intro a b hab hns
    have hnm := notMem_stale_of_notStale h hab hns
    refine ⟨?_, ?_, ?_, ?_⟩
    · show dget (erasePairs _ s.calls) a = some b
      rw [dget_erasePairs, if_neg hnm]
      exact hab
    · show dget (erasePairs _ s.activity) a = dget s.activity a
      rw [dget_erasePairs, if_neg hnm]
    · exact dget_pushEndedEvents_notMem now s.events hnm
    · show dget (removeDbPairs _ s.dbPairs) _ = _
      apply dget_removeDbPairs_notMem
      intro p hp hc
      rcases canon_call_pair_cases hc with ⟨hp1, hp2⟩ | ⟨hp1, hp2⟩
      · exact hnm (mem_pairLogins.mpr ⟨p, hp, Or.inl hp1.symm⟩)
      · exact hnm (mem_pairLogins.mpr ⟨p, hp, Or.inr hp2.symm⟩)
  · apply prune_eq_self_of_nil
    apply collectStale_nil_of_none ?_ []
    intro p hp hstale
    have h' := callInv_prune now s h
    have hp' : p ∈ (prune_stale_calls now s).calls := hp
    have hp1 : dget (prune_stale_calls now s).calls p.1 = some p.2 :=
      dget_eq_some_of_mem h'.1 hp'
    have hp2 : dget (prune_stale_calls now s).calls p.2 = some p.1 :=
      h'.2.1 p hp'
    have hp1' := hp1
    have hp2' := hp2
    rw [show (prune_stale_calls now s).calls =
      erasePairs (collectStale now s.activity s.calls []) s.calls from rfl,
      dget_erasePairs] at hp1' hp2'
    by_cases hm1 : p.1 ∈ pairLogins (collectStale now s.activity s.calls [])
    · rw [if_pos hm1] at hp1'; exact absurd hp1' (by simp)
    · by_cases hm2 : p.2 ∈ pairLogins (collectStale now s.activity s.calls [])
      · rw [if_pos hm2] at hp2'; exact absurd hp2' (by simp)
      · rw [if_neg hm1] at hp1'
        have hact1 : dget (prune_stale_calls now s).activity p.1 =
            dget s.activity p.1 := by
          show dget (erasePairs _ s.activity) p.1 = _
          rw [dget_erasePairs, if_neg hm1]
        have hact2 : dget (prune_stale_calls now s).activity p.2 =
            dget s.activity p.2 := by
          show dget (erasePairs _ s.activity) p.2 = _
          rw [dget_erasePairs, if_neg hm2]
        have hstale0 : staleAt now s.activity p.1 p.2 := by
          unfold staleAt activityOf at hstale ⊢
          rw [hact1, hact2] at hstale
          exact hstale
        have hor := collectStale_complete s.calls []
          (mem_of_dget_eq_some hp1') hstale0 (List.not_mem_nil _) (List.not_mem_nil _)
        rcases hor with hmem | hmem
        · exact hm1 (mem_pairLogins.mpr ⟨(p.1, p.2), hmem, Or.inl rfl⟩)
        · exact hm1 (mem_pairLogins.mpr ⟨(p.2, p.1), hmem, Or.inr rfl⟩)

/-- A state with one ringing pair whose activity is 25s old. -/
def c7State : CallState :=
  ⟨[("a", "b"), ("b", "a")], [("a", 10), ("b", 10)],
    [(("a", "b"), "ringing")], []⟩

theorem C7_prune_stale_spec_witness :
    dget (prune_stale_calls 40 c7State).calls "a" = none ∧
    dget (prune_stale_calls 40 c7State).calls "b" = none ∧
    dget (prune_stale_calls 40 c7State).events "a" =
      some (dequeAppend ((dget c7State.events "a").getD [])
        (40, .call_ended "b" "system")) ∧
    dget (prune_stale_calls 40 c7State).events "b" =
      some (dequeAppend ((dget c7State.events "b").getD [])
        (40, .call_ended "a" "system")) :=
  (C7_prune_stale_spec 40 c7State (by decide)).1 "a" "b" (by decide) (by decide)

/-! ## Python string primitives used by the protocol parsers -/

/-- Python `str.strip()` on a character list. -/
def stripChars (cs : List Char) : List Char :=
  ((cs.dropWhile Char.isWhitespace).reverse.dropWhile Char.isWhitespace).reverse

/-- Python `str.strip()`. -/
def pyStrip (s : String) : String := String.mk (stripChars s.toList)

/-- Python `str.lower()` (ASCII-adequate for the role names used). -/
def pyLower (s : String) : String := String.mk (s.toList.map Char.toLower)

/-- `s[n:]` on strings. -/
def strDrop (s : String) (n : Nat) : String := String.mk (s.toList.drop n)

/-- `s[:n]` on strings. -/
def strTake (s : String) (n : Nat) : String := String.mk (s.toList.take n)

/-- Split at the first occurrence of a separator, Python `split(sep, 1)`:
returns the prefix and, when the separator occurs, the remainder. -/
def splitFirstChar (sep : Char) : List Char → List Char × Option (List Char)
  | [] => ([], none)
  | c :: cs =>
    if c = sep then ([], some cs)
    else
      let r := splitFirstChar sep cs
      (c :: r.1, r.2)

/-- Python `s.split(sep, 1)` yielding `(head, rest?)`. -/
def splitFirst (sep : Char) (s : String) : String × Option String :=
  let r := splitFirstChar sep s.toList
  (String.mk r.1, r.2.map String.mk)

/-- Python `s.split("|")` (full split). -/
def splitBarChars : List Char → List (List Char)
  | [] => [[]]
  | c :: cs =>
    if c = '|' then [] :: splitBarChars cs
    else
      match splitBarChars cs with
      | [] => [[c]]
      | h :: t => (c :: h) :: t

/-- Python `s.split("|")`. -/
def splitBar (s : String) : List String := (splitBarChars s.toList).map String.mk

/-- Python `str.isdigit()` (ASCII digits). -/
def isDigits (s : String) : Bool :=
  s.toList ≠ [] ∧ s.toList.all Char.isDigit

/-- Python `int(s)` for digit strings. -/
def strToNat (s : String) : Nat :=
  s.toList.foldl (fun acc c => acc * 10 + (c.toNat - '0'.toNat)) 0

/-- Python `s.startswith(p)`. -/
def strStartsWith (s p : String) : Bool :=
  s.toList.take p.toList.length = p.toList

end Nodys

namespace Nodys

/-! ## Session gate of the request dispatcher (`handle_request`) -/

/-- One row of the `sessions` table as far as the gate reads it. -/
structure SessionRow where
  login : Login
  expires_at : Int
  deriving DecidableEq, Repr

/-- The session store and clock visible to `get_session_by_token`. -/
structure AuthEnv where
  sessions : List (String × SessionRow)
  now : Int
  deriving Repr

/-- `get_session_by_token`: empty tokens are rejected, expired rows are
deleted by `cleanup_expired_sessions` and re-checked on read. -/
def get_session_by_token (env : AuthEnv) (token : String) : Option SessionRow :=
  if token = "" then none
  else
    match dget env.sessions token with
    | none => none
    | some sess => if sess.expires_at < env.now then none else some sess

/-- An incoming request as far as the gate reads it:
`data.get("action")`, `data.get("token")`, `data.get("session_token")`
(absent fields modelled as `""`, which is how the Python `or`-chains
treat them). -/
structure Request where
  action : String
  token : String
  session_token : String
  deriving DecidableEq, Repr

/-- `data.get("token") or data.get("session_token") or ""`. -/
def authTokenOf (r : Request) : String :=
  if r.token ≠ "" then r.token else r.session_token

/-- Responses, with the bodies of the individual handlers abstracted:
`handled action user` stands for the action-specific processing that runs
only after `require_auth` succeeded. -/
inductive Resp where
  | err (code : Option String) (msg : String)
  | publicOk (action : String)
  | handled (action : String) (user : Login)
  deriving DecidableEq, Repr

/-- `require_auth(data)`. -/
def require_auth (env : AuthEnv) (r : Request) : Resp ⊕ Login :=
  let token := authTokenOf r
  if token = "" then
    Sum.inl (.err (some "session_required") "Требуется авторизация")
  else
    match get_session_by_token env token with
    | none => Sum.inl (.err (some "session_invalid")
        "Сессия недействительна. Войдите заново.")
    | some sess => Sum.inr sess.login

/-- The actions dispatched after the `require_auth` gate, in source
order: note that `find_user` is among them. -/
def authedActions : List String :=
  ["find_user", "heartbeat", "logout", "release_call_state",
   "presence_offline", "status", "update_profile", "send_friend_request",
   "get_friend_requests", "accept_friend_request", "decline_friend_request",
   "get_friends", "remove_friend", "send_message", "get_messages",
   "mark_chat_read", "get_unread_counts", "create_channel", "join_channel",
   "get_my_channels", "send_channel_invite", "get_my_channel_invites",
   "respond_channel_invite", "get_channel_messages", "send_channel_message",
   "get_channel_details", "update_channel_settings",
   "regenerate_channel_code", "set_channel_member_role",
   "remove_channel_member", "leave_channel", "delete_channel",
   "set_channel_voice_presence", "leave_channel_voice",
   "get_channel_voice_participants", "call_user", "poll_events",
   "accept_call", "decline_call", "end_call"]

/-- The dispatch skeleton of `handle_request`: the three public actions
(`register`, `login`, `resume_session`) are handled before the gate,
everything else — `find_user` included — runs `require_auth` first. The
bodies of the handlers (DB effects, call-engine calls) are abstracted to
`Resp.publicOk`/`Resp.handled`. -/
def handle_request (env : AuthEnv) (r : Request) : Resp :=
  if r.action = "" then .err none "Нет действия"
  else if r.action = "register" then .publicOk "register"
  else if r.action = "login" then .publicOk "login"
  else if r.action = "resume_session" then
    match get_session_by_token env r.token with
    | none => .err (some "session_invalid") "Сессия недействительна"
    | some _ => .publicOk "resume_session"
  else
    match require_auth env r with
    | Sum.inl e => e
    | Sum.inr login =>
      if r.action ∈ authedActions then .handled r.action login
      else .err none "Неизвестное действие"

/-- C2 (amended): the only actions handled without a valid session token
are `register`, `login` and `resume_session`; every other action —
`find_user` included — fails closed: a missing token yields the
`session_required` error, an unknown or expired token yields the
`session_invalid` error, and a valid token is resolved to its session's
login (never treated as anonymous). -/
theorem C2_auth_gate (env : AuthEnv) (r : Request)
    (h : r.action ∉ ["", "register", "login", "resume_session"]) :
    (authTokenOf r = "" →
      handle_request env r =
        .err (some "session_required") "Требуется авторизация") ∧
    (get_session_by_token env (authTokenOf r) = none → authTokenOf r ≠ "" →
      handle_request env r =
        .err (some "session_invalid") "Сессия недействительна. Войдите заново.") ∧
    (∀ sess, get_session_by_token env (authTokenOf r) = some sess →
      handle_request env r =
        if r.action ∈ authedActions then .handled r.action sess.login
        else .err none "Неизвестное действие") := by
  simp only [List.mem_cons, not_or] at h
  obtain ⟨h0, h1, h2, h3, -⟩ := h
  unfold handle_request require_auth
  rw [if_neg h0, if_neg h1, if_neg h2, if_neg h3]
  dsimp only
  refine ⟨?_, ?_, ?_⟩
  · intro ht
    rw [if_pos ht]
  · intro hs ht
    rw [if_neg ht, hs]
  · intro sess hs
    have ht : authTokenOf r ≠ "" := by
      intro hc
      rw [hc] at hs
      unfold get_session_by_token at hs
      rw [if_pos rfl] at hs
      exact Option.noConfusion hs
    rw [if_neg ht, hs]

theorem C2_auth_gate_witness :
    handle_request ⟨[], 0⟩ ⟨"heartbeat", "", ""⟩ =
      .err (some "session_required") "Требуется авторизация" :=
  (C2_auth_gate ⟨[], 0⟩ ⟨"heartbeat", "", ""⟩ (by decide)).1 (by decide)

/-- C2 counterexample: `find_user` cannot be handled without a valid
session token — with the token missing it is stopped by the gate with the
`session_required` error, contradicting the claim that `find_user` is one
of the actions handled without a valid session token. -/
theorem C2_find_user_counterexample :
    handle_request ⟨[], 0⟩ ⟨"find_user", "", ""⟩ =
      .err (some "session_required") "Требуется авторизация" ∧
    "find_user" ∈ authedActions := by
  constructor
  · rfl
  · decide

end Nodys

namespace Nodys

/-! ## Channel voice presence and role gate (`src/server/server.py`) -/

/-- `VOICE_PRESENCE_TTL_SEC = 8`. -/
def VOICE_PRESENCE_TTL_SEC : Int := 8

/-- `_VALID_CHANNEL_ROLES`. -/
def VALID_CHANNEL_ROLES : List String := ["member", "moderator", "admin"]

/-- `_VALID_MIN_ACCESS_ROLES` (note: `owner` is not a valid minimum). -/
def VALID_MIN_ACCESS_ROLES : List String := ["member", "moderator", "admin"]

/-- `_ROLE_RANK.get(r, dflt)`. -/
def roleRank (r : String) (dflt : Nat) : Nat :=
  if r = "member" then 1
  else if r = "moderator" then 2
  else if r = "admin" then 3
  else if r = "owner" then 4
  else dflt

/-- `_normalize_member_role`. -/
def normalize_member_role (role : String) : String :=
  let r := pyLower (pyStrip role)
  if r ∈ VALID_CHANNEL_ROLES then r else "member"

/-- `_normalize_min_access_role`. -/
def normalize_min_access_role (role : String) : String :=
  let r := pyLower (pyStrip role)
  if r ∈ VALID_MIN_ACCESS_ROLES then r else "member"

/-- `_has_min_role`. -/
def has_min_role (user_role min_role : String) : Bool :=
  let ur := pyLower (pyStrip (if user_role = "" then "member" else user_role))
  let mr := normalize_min_access_role min_role
  roleRank ur 0 ≥ roleRank mr 1

/-- The columns of `channels` this subsystem reads. -/
structure Channel where
  owner_login : Login
  voice_min_role : String
  deriving DecidableEq, Repr

/-- The `channels` and `channel_members` tables. -/
structure ChanEnv where
  channels : List (Nat × Channel)
  members : List ((Nat × Login) × String)
  deriving Repr

/-- `is_channel_member`. -/
def is_channel_member (env : ChanEnv) (cid : Nat) (login : Login) : Bool :=
  (dget env.members (cid, login)).isSome

/-- `_get_channel_and_my_role`. -/
def get_channel_and_my_role (env : ChanEnv) (cid : Nat) (login : Login) :
    Option Channel × Option String :=
  match dget env.channels cid with
  | none => (none, none)
  | some ch =>
    match dget env.members (cid, login) with
    | none => (some ch, none)
    | some role =>
      (some ch,
        some (if ch.owner_login = login then "owner"
          else normalize_member_role role))

/-- `_can_join_voice`. -/
def can_join_voice (env : ChanEnv) (cid : Nat) (login : Login) : Bool :=
  match get_channel_and_my_role env cid login with
  | (some ch, some my_role) => has_min_role my_role ch.voice_min_role
  | _ => false

/-- One row of `channel_voice_presence`, keyed `(channel_id, login)`,
holding `(speaking, last_seen)`. -/
abbrev PresenceTable := List ((Nat × Login) × (Bool × Int))

/-- `_cleanup_channel_voice_presence(conn, channel_id)`. -/
def cleanup_channel_voice_presence (now : Int) (cid : Nat)
    (t : PresenceTable) : PresenceTable :=
  t.filter (fun e =>
    decide (¬ (e.1.1 = cid ∧ e.2.2 < now - VOICE_PRESENCE_TTL_SEC)))

/-- `set_channel_voice_presence(login, channel_id, speaking, joined)`. -/
def set_channel_voice_presence (env : ChanEnv) (now : Int) (login : Login)
    (channel_id : Int) (speaking joined : Bool) (t : PresenceTable) :
    (Bool × String) × PresenceTable :=
  if channel_id ≤ 0 then ((false, "Не указан канал"), t)
  else
    let cid := channel_id.toNat
    if ¬ is_channel_member env cid login then
      ((false, "Нет доступа к каналу"), t)
    else if joined ∧ ¬ can_join_voice env cid login then
      ((false, "У вас нет прав для входа в голосовой канал"), t)
    else
      let t := cleanup_channel_voice_presence now cid t
      if ¬ joined then ((true, "ok"), derase t (cid, login))
      else ((true, "ok"), dinsert t (cid, login) (speaking, now))

/-- The participant rows built by `get_channel_voice_participants`: the
SQL row's login, resolved role, `speaking`, and the `p.last_seen` column
it selects (the nickname/avatar/online display fields are joins of other
tables and are omitted). -/
abbrev ParticipantRow := Login × String × Bool × Int

/-- `get_channel_voice_participants(channel_id, login)`. -/
def get_channel_voice_participants (env : ChanEnv) (now : Int)
    (login : Login) (channel_id : Int) (t : PresenceTable) :
    (Bool × String × List ParticipantRow) × PresenceTable :=
  if channel_id ≤ 0 then ((false, "Не указан канал", []), t)
  else
    let cid := channel_id.toNat
    if ¬ is_channel_member env cid login then
      ((false, "Нет доступа к каналу", []), t)
    else
      let t := cleanup_channel_voice_presence now cid t
      match dget env.channels cid with
      | none => ((false, "Канал не найден", []), t)
      | some ch =>
        let rows := t.filter (fun e => decide (e.1.1 = cid))
        let out := rows.map (fun e =>
          (e.1.2,
            if e.1.2 = ch.owner_login then "owner"
            else normalize_member_role ((dget env.members (cid, e.1.2)).getD "member"),
            e.2.1, e.2.2))
        ((true, "ok", out), t)

/-- The role the code resolves for `login` in channel `cid`
(`""` when the channel or the membership row is missing, rank 0). -/
def effective_role (env : ChanEnv) (cid : Nat) (login : Login) : String :=
  match get_channel_and_my_role env cid login with
  | (some _, some r) => r
  | _ => ""

/-- The rank of the channel's `voice_min_role` after the code's
normalization (missing channels count as the `member` minimum). -/
def channel_voice_min_rank (env : ChanEnv) (cid : Nat) : Nat :=
  roleRank (normalize_min_access_role
    (((dget env.channels cid).map Channel.voice_min_role).getD "member")) 1

theorem normalize_member_role_mem (role : String) :
    normalize_member_role role ∈ VALID_CHANNEL_ROLES := by
  unfold normalize_member_role
  by_cases hv : pyLower (pyStrip role) ∈ VALID_CHANNEL_ROLES
  · rw [if_pos hv]; exact hv
  · rw [if_neg hv]; decide

/-- Normalized roles are nonempty and untouched by a second
strip/lower pass. -/
theorem valid_roles_fixed {r : String} (h : r ∈ VALID_CHANNEL_ROLES) :
    pyLower (pyStrip r) = r ∧ r ≠ "" := by
  unfold VALID_CHANNEL_ROLES at h
  rcases List.mem_cons.mp h with rfl | h
  · exact ⟨by decide, by decide⟩
  · rcases List.mem_cons.mp h with rfl | h
    · exact ⟨by decide, by decide⟩
    · rcases List.mem_cons.mp h with rfl | h
      · exact ⟨by decide, by decide⟩
      · simp at h

/-- C8: `get_channel_voice_participants` never returns a presence row
whose `last_seen` is older than `VOICE_PRESENCE_TTL` at call time
(expired rows are pruned first), and `set_channel_voice_presence` with
`joined = true` fails — leaving the presence table unchanged — whenever
the login is not a channel member or its resolved role rank (owner
counted highest) is below the channel's `voice_min_role` rank. -/
theorem C8_channel_voice_spec (env : ChanEnv) (now : Int) (login : Login)
    (channel_id : Int) (t : PresenceTable) :
    (∀ row ∈ (get_channel_voice_participants env now login channel_id t).1.2.2,
      now - row.2.2.2 ≤ VOICE_PRESENCE_TTL_SEC) ∧
    (∀ speaking : Bool,
      (is_channel_member env channel_id.toNat login = false ∨
        roleRank (effective_role env channel_id.toNat login) 0 <
          channel_voice_min_rank env channel_id.toNat) →
      (set_channel_voice_presence env now login channel_id speaking true t).1.1
          = false ∧
      (set_channel_voice_presence env now login channel_id speaking true t).2
          = t) := by
  constructor
  · intro row hrow
    unfold get_channel_voice_participants at hrow
    dsimp only at hrow
    split at hrow
    · simp at hrow
    · split at hrow
      · simp at hrow
      · split at hrow
        · simp at hrow
        · rw [List.mem_map] at hrow
          obtain ⟨e, he, hrow⟩ := hrow
          rw [List.mem_filter] at he
          obtain ⟨he1, he2⟩ := he
          unfold cleanup_channel_voice_presence at he1
          rw [List.mem_filter] at he1
          obtain ⟨-, hkeep⟩ := he1
          rw [decide_eq_true_iff] at hkeep he2
          have hls : ¬ e.2.2 < now - VOICE_PRESENCE_TTL_SEC :=
            fun hc => hkeep ⟨he2, hc⟩
          rw [← hrow]
          dsimp only
          omega
  · intro speaking hcond
    unfold set_channel_voice_presence
    by_cases h0 : channel_id ≤ 0
    · rw [if_pos h0]
      exact ⟨rfl, rfl⟩
    · rw [if_neg h0]
      dsimp only
      by_cases h1 : ¬ is_channel_member env channel_id.toNat login
      · rw [if_pos h1]
        exact ⟨rfl, rfl⟩
      · rw [if_neg h1]
        rw [not_not] at h1
        have hrank : roleRank (effective_role env channel_id.toNat login) 0 <
            channel_voice_min_rank env channel_id.toNat := by
          rcases hcond with hc | hc
          · rw [h1] at hc; exact absurd hc (by simp)
          · exact hc
        have hjoin : can_join_voice env channel_id.toNat login = false := by
          unfold can_join_voice
          unfold effective_role at hrank
          unfold channel_voice_min_rank at hrank
          unfold get_channel_and_my_role at hrank ⊢
          cases hch : dget env.channels channel_id.toNat with
          | none => rfl
          | some ch =>
            rw [hch] at hrank
            cases hmem : dget env.members (channel_id.toNat, login) with
            | none => rfl
            | some role =>
              rw [hmem] at hrank
              dsimp only at hrank ⊢
              unfold has_min_role
              set myr := (if ch.owner_login = login then "owner"
                else normalize_member_role role) with hmyr
              have hmy : myr = "owner" ∨ myr ∈ VALID_CHANNEL_ROLES := by
                rw [hmyr]
                by_cases h : ch.owner_login = login
                · rw [if_pos h]; exact Or.inl rfl
                · rw [if_neg h]; exact Or.inr (normalize_member_role_mem role)
              have hne : myr ≠ "" := by
                rcases hmy with hs | hs
                · rw [hs]; decide
                · exact (valid_roles_fixed hs).2
              have hfix : pyLower (pyStrip myr) = myr := by
                rcases hmy with hs | hs
                · rw [hs]; decide
                · exact (valid_roles_fixed hs).1
              rw [if_neg hne, hfix]
              simp only [ge_iff_le, decide_eq_false_iff_not, not_le]
              exact hrank
        rw [if_pos ?_]
        · exact ⟨rfl, rfl⟩
        · exact ⟨rfl, by rw [hjoin]; simp⟩

/-- Env for the C8 witness: channel 1 owned by `o` with `admin` minimum,
`m` a plain member; one fresh and one expired presence row. -/
def c8Env : ChanEnv :=
  ⟨[(1, ⟨"o", "admin"⟩)], [((1, "o"), ""), ((1, "m"), "member")]⟩

theorem C8_channel_voice_spec_witness :
    (∀ row ∈ (get_channel_voice_participants c8Env 100 "m" 1
        [((1, "o"), (true, 95)), ((1, "m"), (false, 10))]).1.2.2,
      (100 : Int) - row.2.2.2 ≤ VOICE_PRESENCE_TTL_SEC) ∧
    ((set_channel_voice_presence c8Env 100 "m" 1 false true
        [((1, "o"), (true, 95)), ((1, "m"), (false, 10))]).1.1 = false ∧
      (set_channel_voice_presence c8Env 100 "m" 1 false true
        [((1, "o"), (true, 95)), ((1, "m"), (false, 10))]).2 =
        [((1, "o"), (true, 95)), ((1, "m"), (false, 10))]) :=
  ⟨(C8_channel_voice_spec c8Env 100 "m" 1
      [((1, "o"), (true, 95)), ((1, "m"), (false, 10))]).1,
    (C8_channel_voice_spec c8Env 100 "m" 1
      [((1, "o"), (true, 95)), ((1, "m"), (false, 10))]).2 false (by decide)⟩

end Nodys

namespace Nodys.Relay

open Nodys

/-! ## UDP voice relay (`src/server/voice_server.py`) -/

/-- A UDP endpoint `(ip, port)`. -/
abbrev Addr := String × Nat

/-- The relay's in-memory tables: `clients`, `addr_to_login`, `pairs`
(a `frozenset({a,b})` key is represented by the canonically ordered
pair — `(a,a)` standing for the singleton set), `room_members` and
`login_room`. -/
structure RelayState where
  clients : List (Login × (Addr × Int))
  addr_to_login : List (Addr × Login)
  pairs : List ((Login × Login) × Bool)
  room_members : List (String × List Login)
  login_room : List (Login × String)
  deriving DecidableEq, Repr

/-- The database facts and configuration the relay consults per packet:
session-token validation (the DB lookup plus expiry parse, abstracted to
an oracle behind the code's empty-string guards), `ALLOW_INSECURE_JOIN`,
the `friends` table, the presence of the `active_call_pairs` table and
its rows, the channel tables, and the sliding-window rate limiter
(timing-dependent, abstracted to an oracle consulted exactly where
`_control_rate_limited` is). -/
structure RelayEnv where
  tokenOK : Login → String → Bool
  allowInsecure : Bool
  friends : List (Login × Login)
  tableExists : Bool
  callPairs : List ((Login × Login) × String)
  channels : List (Nat × Channel)
  members : List ((Nat × Login) × String)
  rateLimited : Addr → String → Bool

/-- `validate_token(login, token)`. -/
def validate_token (env : RelayEnv) (login : Login) (token : String) : Bool :=
  if login = "" ∨ token = "" then false else env.tokenOK login token

/-- `_norm_role` (the relay's copy: `owner` is a valid role here). -/
def norm_role (role : String) : String :=
  let r := pyLower (pyStrip role)
  if r = "member" ∨ r = "moderator" ∨ r = "admin" ∨ r = "owner" then r
  else "member"

/-- `_control_rate_limited`: only `J|`, `C|`, `L|`, `S|` have limits;
other tags (audio in particular) are never rate-limited. -/
def control_rate_limited (env : RelayEnv) (addr : Addr) (typ : String) : Bool :=
  if typ = "J|" ∨ typ = "C|" ∨ typ = "L|" ∨ typ = "S|" then
    env.rateLimited addr typ
  else false

/-- `_is_friends` (the relay's copy). -/
def is_friends (env : RelayEnv) (a b : Login) : Bool :=
  if a = "" ∨ b = "" ∨ a = b then false
  else (a, b) ∈ env.friends ∨ (b, a) ∈ env.friends

/-- `_is_active_call_pair`, including the legacy-schema fallback that
treats every pair as active when the `active_call_pairs` table is
missing. -/
def is_active_call_pair (env : RelayEnv) (a b : Login) : Bool :=
  if ¬ env.tableExists then true
  else
    match dget env.callPairs (canon_call_pair a b) with
    | none => false
    | some status => pyLower (pyStrip status) = "active"

/-- `_can_join_channel_voice`'s room-id parse: plain digits or
`channel:<digits>`. -/
def parse_room_cid (room_id : String) : Option Nat :=
  let raw := pyStrip room_id
  if raw = "" then none
  else if isDigits raw then some (strToNat raw)
  else
    let low := pyLower raw
    if strStartsWith low "channel:" then
      let tail := pyStrip (strDrop low 8)
      if isDigits tail then some (strToNat tail) else none
    else none

/-- `_can_join_channel_voice`. -/
def can_join_channel_voice (env : RelayEnv) (login : Login)
    (room_id : String) : Bool :=
  match parse_room_cid room_id with
  | none => false
  | some cid =>
    if cid = 0 then false
    else
      match dget env.channels cid with
      | none => false
      | some ch =>
        let need := norm_role (if ch.voice_min_role = "" then "member"
          else ch.voice_min_role)
        if ch.owner_login = login then
          roleRank "owner" 0 ≥ roleRank need 1
        else
          match dget env.members (cid, login) with
          | none => false
          | some r => roleRank (norm_role r) 0 ≥ roleRank need 1

/-- `_mark_seen`. -/
def mark_seen (now : Int) (login : Login) (addr : Addr)
    (st : RelayState) : RelayState :=
  { st with clients := dinsert st.clients login (addr, now)
            addr_to_login := dinsert st.addr_to_login addr login }

/-- `set.discard` on a room plus removal of emptied rooms. -/
def room_discard (rooms : List (String × List Login)) (rid : String)
    (login : Login) : List (String × List Login) :=
  match dget rooms rid with
  | none => rooms
  | some mem =>
    let mem' := mem.filter (fun u => decide (u ≠ login))
    if mem' = [] then derase rooms rid else dinsert rooms rid mem'

/-- `_join_room`. -/
def join_room (login : Login) (room_id : String) (st : RelayState) :
    RelayState :=
  let rooms :=
    match dget st.login_room login with
    | none => st.room_members
    | some old =>
      if old ≠ "" then room_discard st.room_members old login
      else st.room_members
  let cur := (dget rooms room_id).getD []
  let cur' := if login ∈ cur then cur else cur ++ [login]
  { st with room_members := dinsert rooms room_id cur'
            login_room := dinsert st.login_room login room_id }

/-- `_remove_from_room`. -/
def remove_from_room (login : Login) (st : RelayState) : RelayState :=
  match dget st.login_room login with
  | none => { st with login_room := derase st.login_room login }
  | some old =>
    { st with login_room := derase st.login_room login
              room_members :=
                if old ≠ "" then room_discard st.room_members old login
                else st.room_members }

/-- `set_pair`. -/
def set_pair (a b : Login) (active : Bool) (st : RelayState) : RelayState :=
  if active then
    { st with pairs := dinsert st.pairs (canon_call_pair a b) true }
  else
    { st with pairs := derase st.pairs (canon_call_pair a b) }

/-- `other_user_in_pair`: first pair containing `me` that has a member
distinct from `me` (a singleton `frozenset` yields no other user). -/
def other_user_in_pair (pairs : List ((Login × Login) × Bool))
    (me : Login) : Option Login :=
  match pairs with
  | [] => none
  | (key, _) :: t =>
    if (me = key.1 ∨ me = key.2) ∧ key.1 ≠ key.2 then
      some (if me = key.1 then key.2 else key.1)
    else other_user_in_pair t me

/-- The fields of a pairing datagram `S|…`: optional `(sender, token)`
(the secure 5-field form), then `a`, `b`, `flag`, each stripped as the
code strips them. `none` when fewer than three fields are present. -/
def parse_S (data : String) : Option (Option (String × String) × String × String × String) :=
  if data.toList.length < 3 ∨ strTake data 2 ≠ "S|" then none
  else
    let parts := splitBar (pyStrip (strDrop data 2))
    if parts.length ≥ 5 then
      some (some (pyStrip (parts.getD 0 ""), pyStrip (parts.getD 1 "")),
        pyStrip (parts.getD 2 ""), pyStrip (parts.getD 3 ""),
        pyStrip (parts.getD 4 ""))
    else if parts.length ≥ 3 then
      some (none, pyStrip (parts.getD 0 ""), pyStrip (parts.getD 1 ""),
        pyStrip (parts.getD 2 ""))
    else none

/-- The fields of an audio datagram `A|from_login|pcm`: the stripped
login before the first `|` of the payload, and the raw payload after
it. -/
def parse_A (data : String) : Option (String × String) :=
  if data.toList.length < 3 ∨ strTake data 2 ≠ "A|" then none
  else
    match splitFirst '|' (strDrop data 2) with
    | (_, none) => none
    | (f, some pcm) => some (pyStrip f, pcm)

/-- The body of the `S|` branch of `handle_packet` (after the tag
dispatch and rate-limit check). -/
def handle_S (env : RelayEnv) (st : RelayState) (addr : Addr)
    (data : String) : RelayState :=
  match parse_S data with
  | none => st
  | some (sd, a, b, flag) =>
    match dget st.addr_to_login addr with
    | none => st
    | some sender_mapped =>
      if sender_mapped = "" then st
      else
        let p := sd.getD (sender_mapped, "")
        let sender_login := p.1
        let token := p.2
        if sender_login ≠ "" ∧ sender_login ≠ sender_mapped then st
        else if ¬ (sender_mapped = a ∨ sender_mapped = b) then st
        else if token ≠ "" then
          if ¬ validate_token env sender_mapped token then st
          else if flag = "1" then
            if ¬ is_friends env a b then st
            else if ¬ is_active_call_pair env a b then st
            else set_pair a b true st
          else set_pair a b false st
        else if ¬ env.allowInsecure then st
        else if flag = "1" then
          if ¬ is_friends env a b then st
          else if ¬ is_active_call_pair env a b then st
          else set_pair a b true st
        else set_pair a b false st

/-- The body of the `A|` branch of `handle_packet`: validates the sender
binding, refreshes it, then fans the frame out to the room or forwards
it to the paired peer. Returns the new state and the datagrams sent. -/
def handle_A (now : Int) (st : RelayState) (addr : Addr)
    (data : String) : RelayState × List (Addr × String) :=
  match parse_A data with
  | none => (st, [])
  | some (from_user, pcm) =>
    if dget st.addr_to_login addr ≠ some from_user then (st, [])
    else
      let st' := mark_seen now from_user addr st
      let room_id := (dget st'.login_room from_user).getD ""
      if room_id ≠ "" then
        let recips := ((dget st'.room_members room_id).getD []).filter
          (fun u => decide (u ≠ from_user))
        let sends := recips.filterMap (fun u =>
          (dget st'.clients u).map
            (fun c => (c.1, "R|" ++ from_user ++ "|" ++ pcm)))
        (st', sends)
      else
        match other_user_in_pair st'.pairs from_user with
        | none => (st', [])
        | some to_user =>
          match dget st'.clients to_user with
          | none => (st', [])
          | some c => (st', [(c.1, "R|" ++ from_user ++ "|" ++ pcm)])

/-- The body of the `J|` branch: bind the endpoint after token
validation (or in insecure mode). -/
def handle_J (env : RelayEnv) (now : Int) (st : RelayState) (addr : Addr)
    (data : String) : RelayState :=
  let payload := pyStrip (strDrop data 2)
  if payload = "" then st
  else
    let r := splitFirst '|' payload
    let login := pyStrip r.1
    let token := (r.2.map pyStrip).getD ""
    if token ≠ "" then
      if ¬ validate_token env login token then st
      else mark_seen now login addr st
    else if ¬ env.allowInsecure then st
    else mark_seen now login addr st

/-- The body of the `C|` branch: join a channel voice room after
re-validating the token and the role gate. -/
def handle_C (env : RelayEnv) (now : Int) (st : RelayState) (addr : Addr)
    (data : String) : RelayState :=
  let parts := splitBar (pyStrip (strDrop data 2))
  if parts.length < 3 then st
  else
    let login := pyStrip (parts.getD 0 "")
    let token := pyStrip (parts.getD 1 "")
    let room_id := pyStrip (parts.getD 2 "")
    if login = "" ∨ room_id = "" then st
    else if token ≠ "" then
      if ¬ validate_token env login token then st
      else if ¬ can_join_channel_voice env login room_id then st
      else join_room login room_id (mark_seen now login addr st)
    else if ¬ env.allowInsecure then st
    else if ¬ can_join_channel_voice env login room_id then st
    else join_room login room_id (mark_seen now login addr st)

/-- The body of the `L|` branch: leave the room, only for the endpoint
bound to the named login. -/
def handle_L (st : RelayState) (addr : Addr) (data : String) : RelayState :=
  let parts := splitBar (pyStrip (strDrop data 2))
  let login := pyStrip (parts.getD 0 "")
  if login = "" then st
  else if dget st.addr_to_login addr ≠ some login then st
  else remove_from_room login st

/-- `handle_packet`: tag dispatch, rate limiting, and the per-tag
branches of the UDP relay. -/
def handle_packet (env : RelayEnv) (now : Int) (st : RelayState)
    (addr : Addr) (data : String) : RelayState × List (Addr × String) :=
  if data.toList.length < 3 then (st, [])
  else
    let typ := strTake data 2
    if control_rate_limited env addr typ then (st, [])
    else if typ = "J|" then (handle_J env now st addr data, [])
    else if typ = "C|" then (handle_C env now st addr data, [])
    else if typ = "L|" then (handle_L st addr data, [])
    else if typ = "S|" then (handle_S env st addr data, [])
    else if typ = "P|" then (st, [(addr, "Q|" ++ strDrop data 2)])
    else if typ = "A|" then handle_A now st addr data
    else (st, [])

/-! ### Order facts for the canonical pair representation -/

theorem lexLe_total (l1 l2 : List Char) :
    lexLe l1 l2 = true ∨ lexLe l2 l1 = true := by
  induction l1 generalizing l2 with
  | nil => exact Or.inl rfl
  | cons c cs ih =>
    cases l2 with
    | nil => exact Or.inr rfl
    | cons d ds =>
      by_cases h1 : c.toNat < d.toNat
      · left; unfold lexLe; rw [if_pos h1]
      · by_cases h2 : d.toNat < c.toNat
        · right; unfold lexLe; rw [if_pos h2]
        · rcases ih ds with h | h
          · left; unfold lexLe; rw [if_neg h1, if_neg h2]; exact h
          · right; unfold lexLe; rw [if_neg h2, if_neg h1]; exact h

theorem lexLe_antisymm : ∀ {l1 l2 : List Char},
    lexLe l1 l2 = true → lexLe l2 l1 = true → l1 = l2 := by
  intro l1
  induction l1 with
  | nil =>
    intro l2 _ h2
    cases l2 with
    | nil => rfl
    | cons d ds => exact absurd h2 (by rw [show lexLe (d :: ds) [] = false from rfl]; simp)
  | cons c cs ih =>
    intro l2 h1 h2
    cases l2 with
    | nil => exact absurd h1 (by rw [show lexLe (c :: cs) [] = false from rfl]; simp)
    | cons d ds =>
      unfold lexLe at h1 h2
      by_cases hcd : c.toNat < d.toNat
      · rw [if_neg (by omega), if_pos hcd] at h2
        exact absurd h2 (by simp)
      · by_cases hdc : d.toNat < c.toNat
        · rw [if_neg (by omega), if_pos hdc] at h1
          exact absurd h1 (by simp)
        · rw [if_neg hcd, if_neg hdc] at h1
          rw [if_neg hdc, if_neg hcd] at h2
          have hc : c = d := by
            have ht : c.toNat = d.toNat := by omega
            exact Char.ext (UInt32.ext ht)
          rw [hc, ih h1 h2]

theorem string_toList_inj {a b : String} (h : a.toList = b.toList) : a = b := by
  cases a; cases b
  exact congrArg String.mk h

theorem canon_call_pair_swap (a b : Login) :
    canon_call_pair a b = canon_call_pair b a := by
  unfold canon_call_pair
  by_cases h1 : strLe a b = true
  · by_cases h2 : strLe b a = true
    · have hab : a = b := string_toList_inj (lexLe_antisymm h1 h2)
      subst hab
      rfl
    · rw [if_pos h1, if_neg (by simpa using h2)]
  · have h2 : strLe b a = true := (lexLe_total a.toList b.toList).resolve_left h1
    rw [if_neg (by simpa using h1), if_pos h2]

theorem canon_call_pair_or (a b : Login) :
    canon_call_pair a b = (a, b) ∨ canon_call_pair a b = (b, a) := by
  unfold canon_call_pair
  split
  · exact Or.inl rfl
  · exact Or.inr rfl

theorem is_friends_symm (env : RelayEnv) (a b : Login) :
    is_friends env a b = is_friends env b a := by
  unfold is_friends
  by_cases h : a = "" ∨ b = "" ∨ a = b
  · rw [if_pos h, if_pos (by
      rcases h with h | h | h
      · exact Or.inr (Or.inl h)
      · exact Or.inl h
      · exact Or.inr (Or.inr h.symm))]
  · rw [if_neg h, if_neg (by
      intro hc
      rcases hc with hc | hc | hc
      · exact h (Or.inr (Or.inl hc))
      · exact h (Or.inl hc)
      · exact h (Or.inr (Or.inr hc.symm)))]
    exact decide_eq_decide.mpr or_comm

theorem is_active_call_pair_symm (env : RelayEnv) (a b : Login) :
    is_active_call_pair env a b = is_active_call_pair env b a := by
  unfold is_active_call_pair
  rw [canon_call_pair_swap]

theorem other_user_in_pair_ne {pairs : List ((Login × Login) × Bool)}
    {me u : Login} (h : other_user_in_pair pairs me = some u) : u ≠ me := by
  induction pairs with
  | nil => exact absurd h (by rw [show other_user_in_pair [] me = none from rfl]; simp)
  | cons e t ih =>
    obtain ⟨key, v⟩ := e
    unfold other_user_in_pair at h
    split at h
    · next hc =>
      obtain ⟨hmem, hne⟩ := hc
      rw [Option.some.injEq] at h
      subst h
      by_cases h1 : me = key.1
      · rw [if_pos h1]
        intro hc'
        exact hne (h1.symm.trans hc'.symm)
      · rw [if_neg h1]
        intro hc'
        exact h1 hc'.symm
    · exact ih h

/-! ### Frame handling leaves unrelated tables alone -/

theorem remove_from_room_pairs (login : Login) (st : RelayState) :
    (remove_from_room login st).pairs = st.pairs := by
  unfold remove_from_room
  cases dget st.login_room login <;> rfl

theorem handle_A_pairs (now : Int) (st : RelayState) (addr : Addr)
    (data : String) : (handle_A now st addr data).1.pairs = st.pairs := by
  unfold handle_A
  dsimp only
  repeat' split
  all_goals rfl

theorem handle_J_pairs (env : RelayEnv) (now : Int) (st : RelayState)
    (addr : Addr) (data : String) :
    (handle_J env now st addr data).pairs = st.pairs := by
  unfold handle_J
  dsimp only
  repeat' split
  all_goals rfl

theorem handle_C_pairs (env : RelayEnv) (now : Int) (st : RelayState)
    (addr : Addr) (data : String) :
    (handle_C env now st addr data).pairs = st.pairs := by
  unfold handle_C
  dsimp only
  repeat' split
  all_goals rfl

theorem handle_L_pairs (st : RelayState) (addr : Addr) (data : String) :
    (handle_L st addr data).pairs = st.pairs := by
  unfold handle_L
  dsimp only
  repeat' split
  all_goals first
  | rfl
  | exact remove_from_room_pairs _ _

/-- Every branch of `handle_packet` either keeps the pair table or is the
`S|` branch. -/
theorem handle_packet_pairs (env : RelayEnv) (now : Int) (st : RelayState)
    (addr : Addr) (data : String) :
    (handle_packet env now st addr data).1.pairs = st.pairs ∨
      (handle_packet env now st addr data).1 = handle_S env st addr data := by
  unfold handle_packet
  split
  · exact Or.inl rfl
  · dsimp only
    split
    · exact Or.inl rfl
    · split
      · exact Or.inl (handle_J_pairs env now st addr data)
      · split
        · exact Or.inl (handle_C_pairs env now st addr data)
        · split
          · exact Or.inl (handle_L_pairs st addr data)
          · split
            · exact Or.inr rfl
            · split
              · exact Or.inl rfl
              · split
                · exact Or.inl (handle_A_pairs now st addr data)
                · exact Or.inl rfl

theorem parse_S_facts {data : String} {r}
    (hp : parse_S data = some r) :
    ¬ data.toList.length < 3 ∧ strTake data 2 = "S|" := by
  unfold parse_S at hp
  by_cases h1 : data.toList.length < 3
  · rw [if_pos (Or.inl h1)] at hp
    exact Option.noConfusion hp
  · by_cases h2 : strTake data 2 = "S|"
    · exact ⟨h1, h2⟩
    · rw [if_pos (Or.inr h2)] at hp
      exact Option.noConfusion hp

set_option maxHeartbeats 2000000 in
/-- C3 (amended): a pairing datagram establishes a private pair only when
the sending endpoint is bound to one of the two named logins, the
supplied token validates for that login (or token-less mode is enabled),
the two logins are friends, and either an Active `call pair` row exists
in the signaling store or the `active_call_pairs` table is absent
(legacy-schema fallback); a `flag=1` datagram that is not ignored
performs exactly that pair insertion. -/
theorem C3_pairing_auth (env : RelayEnv) (now : Int) (st : RelayState)
    (addr : Addr) (data : String) :
    (∀ k : Login × Login,
      dget (handle_packet env now st addr data).1.pairs k = some true →
      dget st.pairs k = none →
      ∃ sender, dget st.addr_to_login addr = some sender ∧ sender ≠ "" ∧
        (sender = k.1 ∨ sender = k.2) ∧
        (∃ token, (token ≠ "" ∧ validate_token env sender token = true) ∨
          (token = "" ∧ env.allowInsecure = true)) ∧
        is_friends env k.1 k.2 = true ∧
        (env.tableExists = false ∨
          ∃ status, dget env.callPairs (canon_call_pair k.1 k.2) = some status ∧
            pyLower (pyStrip status) = "active")) ∧
    (∀ sd a b flag, parse_S data = some (sd, a, b, flag) → flag = "1" →
      handle_packet env now st addr data = (st, []) ∨
      (∃ sender, dget st.addr_to_login addr = some sender ∧ sender ≠ "" ∧
        (sender = a ∨ sender = b) ∧
        (((sd.getD (sender, "")).2 ≠ "" ∧
            validate_token env sender (sd.getD (sender, "")).2 = true) ∨
          ((sd.getD (sender, "")).2 = "" ∧ env.allowInsecure = true)) ∧
        is_friends env a b = true ∧ is_active_call_pair env a b = true ∧
        handle_packet env now st addr data =
          ({ st with pairs := dinsert st.pairs (canon_call_pair a b) true },
            []))) := by
  have conclude : ∀ (a b : Login) (k : Login × Login),
      k = canon_call_pair a b →
      is_friends env a b = true → is_active_call_pair env a b = true →
      is_friends env k.1 k.2 = true ∧
      (env.tableExists = false ∨
        ∃ status, dget env.callPairs (canon_call_pair k.1 k.2) = some status ∧
          pyLower (pyStrip status) = "active") := by
    intro a b k hk hfr hact
    have hcanon : canon_call_pair k.1 k.2 = canon_call_pair a b := by
      rcases canon_call_pair_or a b with hc | hc
      · rw [hk, hc]
        exact hc
      · rw [hk, hc]
        exact (canon_call_pair_swap b a).trans hc
    have hfr' : is_friends env k.1 k.2 = true := by
      rcases canon_call_pair_or a b with hc | hc
      · rw [hk, hc]; exact hfr
      · rw [hk, hc]
        exact (is_friends_symm env b a).trans hfr
    refine ⟨hfr', ?_⟩
    by_cases ht : env.tableExists = true
    · right
      unfold is_active_call_pair at hact
      rw [if_neg (by simpa using ht)] at hact
      rw [hcanon]
      cases hrow : dget env.callPairs (canon_call_pair a b) with
      | none => rw [hrow] at hact; exact absurd hact (by simp)
      | some status =>
        rw [hrow] at hact
        exact ⟨status, rfl, by simpa using hact⟩
    · exact Or.inl (Bool.eq_false_iff.mpr ht)
  have memk : ∀ (a b : Login) (k : Login × Login) (x : Login),
      k = canon_call_pair a b → (x = a ∨ x = b) → (x = k.1 ∨ x = k.2) := by
    intro a b k x hk hx
    rcases canon_call_pair_or a b with hc | hc <;> rw [hk, hc] <;> tauto
  constructor
  · intro k hget hnone
    rcases handle_packet_pairs env now st addr data with hc | hc
    · rw [hc, hnone] at hget
      exact Option.noConfusion hget
    · rw [hc] at hget
      unfold handle_S at hget
      split at hget
      · rw [hnone] at hget; exact Option.noConfusion hget
      · next sd a b flag hparse =>
        split at hget
        · rw [hnone] at hget; exact Option.noConfusion hget
        · next sm hsm =>
          split at hget
          · rw [hnone] at hget; exact Option.noConfusion hget
          · next hse =>
            dsimp only at hget
            split at hget
            · rw [hnone] at hget; exact Option.noConfusion hget
            · split at hget
              · rw [hnone] at hget; exact Option.noConfusion hget
              · next hin =>
                rw [not_not] at hin
                split at hget
                · next htok =>
                  split at hget
                  · rw [hnone] at hget; exact Option.noConfusion hget
                  · next hval =>
                    rw [not_not] at hval
                    split at hget
                    · next hflag =>
                      split at hget
                      · rw [hnone] at hget; exact Option.noConfusion hget
                      · split at hget
                        · rw [hnone] at hget; exact Option.noConfusion hget
                        · next hfr hact =>
                          rw [not_not] at hfr hact
                          unfold set_pair at hget
                          rw [if_pos rfl] at hget
                          dsimp only at hget
                          rw [dget_dinsert] at hget
                          by_cases hk : k = canon_call_pair a b
                          · obtain ⟨hfr', hact'⟩ :=
                              conclude a b k hk hfr hact
                            exact ⟨sm, hsm, hse, memk a b k sm hk hin,
                              ⟨(sd.getD (sm, "")).2, Or.inl ⟨htok, hval⟩⟩,
                              hfr', hact'⟩
                          · rw [if_neg hk, hnone] at hget
                            exact Option.noConfusion hget
                    · unfold set_pair at hget
                      rw [if_neg (by simp)] at hget
                      dsimp only at hget
                      rw [dget_derase] at hget
                      split at hget
                      · exact Option.noConfusion hget
                      · rw [hnone] at hget; exact Option.noConfusion hget
                · next htok =>
                  rw [not_not] at htok
                  split at hget
                  · rw [hnone] at hget; exact Option.noConfusion hget
                  · next hins =>
                    rw [not_not] at hins
                    split at hget
                    · next hflag =>
                      split at hget
                      · rw [hnone] at hget; exact Option.noConfusion hget
                      · split at hget
                        · rw [hnone] at hget; exact Option.noConfusion hget
                        · next hfr hact =>
                          rw [not_not] at hfr hact
                          unfold set_pair at hget
                          rw [if_pos rfl] at hget
                          dsimp only at hget
                          rw [dget_dinsert] at hget
                          by_cases hk : k = canon_call_pair a b
                          · obtain ⟨hfr', hact'⟩ :=
                              conclude a b k hk hfr hact
                            exact ⟨sm, hsm, hse, memk a b k sm hk hin,
                              ⟨"", Or.inr ⟨rfl, hins⟩⟩, hfr', hact'⟩
                          · rw [if_neg hk, hnone] at hget
                            exact Option.noConfusion hget
                    · unfold set_pair at hget
                      rw [if_neg (by simp)] at hget
                      dsimp only at hget
                      rw [dget_derase] at hget
                      split at hget
                      · exact Option.noConfusion hget
                      · rw [hnone] at hget; exact Option.noConfusion hget
  · intro sd a b flag hparse hflag
    obtain ⟨hlen, htyp⟩ := parse_S_facts hparse
    by_cases hrl : control_rate_limited env addr "S|" = true
    · left
      unfold handle_packet
      rw [if_neg hlen]
      dsimp only
      rw [htyp, if_pos hrl]
    · have hdisp : handle_packet env now st addr data =
          (handle_S env st addr data, []) := by
        unfold handle_packet
        rw [if_neg hlen]
        dsimp only
        rw [htyp, if_neg hrl, if_neg (by decide), if_neg (by decide),
          if_neg (by decide), if_pos rfl]
      rw [hdisp]
      set x := handle_S env st addr data with hx
      unfold handle_S at hx
      rw [hparse] at hx
      dsimp only at hx
      split at hx
      · exact Or.inl (by rw [hx])
      · next sm hsm =>
        split at hx
        · exact Or.inl (by rw [hx])
        · next hse =>
          split at hx
          · exact Or.inl (by rw [hx])
          · split at hx
            · exact Or.inl (by rw [hx])
            · next hin =>
              rw [not_not] at hin
              split at hx
              · next htok =>
                split at hx
                · exact Or.inl (by rw [hx])
                · next hval =>
                  rw [not_not] at hval
                  by_cases hfr : is_friends env a b = true
                  · rw [if_neg (not_not_intro hfr)] at hx
                    by_cases hact : is_active_call_pair env a b = true
                    · rw [if_neg (not_not_intro hact)] at hx
                      right
                      refine ⟨sm, hsm, hse, hin, Or.inl ⟨htok, hval⟩,
                        hfr, hact, ?_⟩
                      rw [hx]
                      unfold set_pair
                      rw [if_pos rfl]
                    · rw [if_pos hact] at hx
                      exact Or.inl (by rw [hx])
                  · rw [if_pos hfr] at hx
                    exact Or.inl (by rw [hx])
              · next htok =>
                rw [not_not] at htok
                split at hx
                · exact Or.inl (by rw [hx])
                · next hins =>
                  rw [not_not] at hins
                  by_cases hfr : is_friends env a b = true
                  · rw [if_neg (not_not_intro hfr)] at hx
                    by_cases hact : is_active_call_pair env a b = true
                    · rw [if_neg (not_not_intro hact)] at hx
                      right
                      refine ⟨sm, hsm, hse, hin, Or.inr ⟨htok, hins⟩,
                        hfr, hact, ?_⟩
                      rw [hx]
                      unfold set_pair
                      rw [if_pos rfl]
                    · rw [if_pos hact] at hx
                      exact Or.inl (by rw [hx])
                  · rw [if_pos hfr] at hx
                    exact Or.inl (by rw [hx])

/-- A relay configuration running against a legacy database: the
`active_call_pairs` table is absent and no signaling rows exist. -/
def c3Env : RelayEnv :=
  { tokenOK := fun l t => decide (l = "a") && decide (t = "t")
    allowInsecure := false
    friends := [("a", "b")]
    tableExists := false
    callPairs := []
    channels := []
    members := []
    rateLimited := fun _ _ => false }

/-- The same configuration with the table present and an Active row. -/
def c3EnvOK : RelayEnv :=
  { tokenOK := fun l t => decide (l = "a") && decide (t = "t")
    allowInsecure := false
    friends := [("a", "b")]
    tableExists := true
    callPairs := [(("a", "b"), "active")]
    channels := []
    members := []
    rateLimited := fun _ _ => false }

/-- Relay state with login `a` bound to one endpoint. -/
def c3St : RelayState :=
  { clients := [("a", (("1.2.3.4", 10), 0))]
    addr_to_login := [((("1.2.3.4" : String), 10), "a")]
    pairs := []
    room_members := []
    login_room := [] }

/-- C3 counterexample: with the `active_call_pairs` table absent
(legacy-schema fallback), an authorized, friendly `flag=1` pairing
datagram establishes the pair even though no Active CallPair exists in
the signaling store — contradicting the claim that an Active CallPair is
required for every established pair. -/
theorem C3_pairing_auth_counterexample :
    dget (handle_packet c3Env 5 c3St ("1.2.3.4", 10)
        "S|a|t|a|b|1").1.pairs (canon_call_pair "a" "b") = some true ∧
    dget c3St.pairs (canon_call_pair "a" "b") = none ∧
    c3Env.tableExists = false ∧ c3Env.callPairs = [] := by
  refine ⟨?_, by decide, by decide, by decide⟩
  decide

theorem C3_pairing_auth_witness :
    ∃ sender, dget c3St.addr_to_login ("1.2.3.4", 10) = some sender ∧
      sender ≠ "" ∧
      (sender = (canon_call_pair "a" "b").1 ∨
        sender = (canon_call_pair "a" "b").2) ∧
      (∃ token, (token ≠ "" ∧ validate_token c3EnvOK sender token = true) ∨
        (token = "" ∧ c3EnvOK.allowInsecure = true)) ∧
      is_friends c3EnvOK (canon_call_pair "a" "b").1
        (canon_call_pair "a" "b").2 = true ∧
      (c3EnvOK.tableExists = false ∨
        ∃ status,
          dget c3EnvOK.callPairs
            (canon_call_pair (canon_call_pair "a" "b").1
              (canon_call_pair "a" "b").2) = some status ∧
          pyLower (pyStrip status) = "active") :=
  (C3_pairing_auth c3EnvOK 5 c3St ("1.2.3.4", 10) "S|a|t|a|b|1").1
    (canon_call_pair "a" "b") (by decide) (by decide)

/-! ### Audio routing -/

theorem parse_A_facts {data : String} {r}
    (hp : parse_A data = some r) :
    ¬ data.toList.length < 3 ∧ strTake data 2 = "A|" := by
  unfold parse_A at hp
  by_cases h1 : data.toList.length < 3
  · rw [if_pos (Or.inl h1)] at hp
    exact Option.noConfusion hp
  · by_cases h2 : strTake data 2 = "A|"
    · exact ⟨h1, h2⟩
    · rw [if_pos (Or.inr h2)] at hp
      exact Option.noConfusion hp

theorem handle_packet_A (env : RelayEnv) (now : Int) (st : RelayState)
    (addr : Addr) {data : String} {r} (hp : parse_A data = some r) :
    handle_packet env now st addr data = handle_A now st addr data := by
  obtain ⟨hlen, htyp⟩ := parse_A_facts hp
  unfold handle_packet
  rw [if_neg hlen]
  dsimp only
  rw [htyp]
  rw [if_neg (by
    unfold control_rate_limited
    rw [if_neg (by decide)]
    simp)]
  rw [if_neg (by decide), if_neg (by decide), if_neg (by decide),
    if_neg (by decide), if_neg (by decide), if_pos rfl]

/-- C4: an audio datagram from an endpoint not bound to the claimed
login is dropped entirely; from a bound endpoint it is forwarded
verbatim, as `R|from_login|pcm`, to the registered endpoint of every
other current member of the sender's room and to no one else; with no
room, only to the paired peer's endpoint, if any; otherwise nothing is
sent. -/
theorem C4_audio_routing (env : RelayEnv) (now : Int) (st : RelayState)
    (addr : Addr) (data : String) (from_user pcm : String)
    (hp : parse_A data = some (from_user, pcm)) :
    (dget st.addr_to_login addr ≠ some from_user →
      handle_packet env now st addr data = (st, [])) ∧
    (dget st.addr_to_login addr = some from_user →
      ∀ rid, dget st.login_room from_user = some rid → rid ≠ "" →
        (handle_packet env now st addr data).2 =
          (((dget st.room_members rid).getD []).filter
              (fun u => decide (u ≠ from_user))).filterMap
            (fun u => (dget st.clients u).map
              (fun c => (c.1, "R|" ++ from_user ++ "|" ++ pcm)))) ∧
    (dget st.addr_to_login addr = some from_user →
      (dget st.login_room from_user).getD "" = "" →
      ∀ peer, other_user_in_pair st.pairs from_user = some peer →
        (handle_packet env now st addr data).2 =
          ((dget st.clients peer).map
            (fun c => (c.1, "R|" ++ from_user ++ "|" ++ pcm))).toList) ∧
    (dget st.addr_to_login addr = some from_user →
      (dget st.login_room from_user).getD "" = "" →
      other_user_in_pair st.pairs from_user = none →
      (handle_packet env now st addr data).2 = []) := by
  rw [handle_packet_A env now st addr hp]
  unfold handle_A
  rw [hp]
  dsimp only
  refine ⟨?_, ?_, ?_, ?_⟩
  · intro hne
    rw [if_pos hne]
  · intro hb rid hrid hridne
    rw [if_neg (fun hc => hc hb)]
    have hroom : (dget (mark_seen now from_user addr st).login_room
        from_user).getD "" = rid := by
      rw [show (mark_seen now from_user addr st).login_room =
        st.login_room from rfl, hrid]
      rfl
    rw [hroom, if_pos hridne]
    dsimp only
    rw [show (mark_seen now from_user addr st).room_members =
      st.room_members from rfl]
    apply List.filterMap_congr
    intro u hu
    rw [List.mem_filter] at hu
    have hune : u ≠ from_user := by
      have := hu.2
      rw [decide_eq_true_iff] at this
      exact this
    rw [show (mark_seen now from_user addr st).clients =
      dinsert st.clients from_user (addr, now) from rfl]
    rw [dget_dinsert_ne _ _ hune]
  · intro hb hnoroom peer hpeer
    rw [if_neg (fun hc => hc hb)]
    have hroom : (dget (mark_seen now from_user addr st).login_room
        from_user).getD "" = "" := by
      rw [show (mark_seen now from_user addr st).login_room =
        st.login_room from rfl]
      exact hnoroom
    rw [hroom, if_neg (by simp)]
    rw [show (mark_seen now from_user addr st).pairs = st.pairs from rfl,
      hpeer]
    dsimp only
    have hpne : peer ≠ from_user := other_user_in_pair_ne hpeer
    rw [show (mark_seen now from_user addr st).clients =
      dinsert st.clients from_user (addr, now) from rfl]
    rw [dget_dinsert_ne _ _ hpne]
    cases dget st.clients peer with
    | none => rfl
    | some c => rfl
  · intro hb hnoroom hnopeer
    rw [if_neg (fun hc => hc hb)]
    have hroom : (dget (mark_seen now from_user addr st).login_room
        from_user).getD "" = "" := by
      rw [show (mark_seen now from_user addr st).login_room =
        st.login_room from rfl]
      exact hnoroom
    rw [hroom, if_neg (by simp)]
    rw [show (mark_seen now from_user addr st).pairs = st.pairs from rfl,
      hnopeer]

/-- An endpoint for `b` alongside `a`'s, plus an active private pair. -/
def c4St : RelayState :=
  { clients := [("a", (("1.2.3.4", 10), 0)), ("b", (("5.6.7.8", 20), 0))]
    addr_to_login := [((("1.2.3.4" : String), 10), "a"),
      ((("5.6.7.8" : String), 20), "b")]
    pairs := [(canon_call_pair "a" "b", true)]
    room_members := []
    login_room := [] }

theorem C4_audio_routing_witness :
    (handle_packet c3Env 7 c4St ("1.2.3.4", 10) "A|a|xyz").2 =
      [(("5.6.7.8", 20), "R|" ++ "a" ++ "|" ++ "xyz")] :=
  ((C4_audio_routing c3Env 7 c4St ("1.2.3.4", 10) "A|a|xyz" "a" "xyz"
      (by decide)).2.2.1 (by decide) (by decide) "b" (by decide)).trans
    (by decide)

end Nodys.Relay

namespace Nodys.Client

open Nodys

/-! ## Client audio engine (`src/client/voice_client.py`)

The playback callback `_play_cb` and the audio part of `_recv_loop`,
modelled at the level of int16 sample frames. Python wraps both paths in
`try/except` blocks whose handlers write silence, so the embedding is a
total function: no exception can escape the callback. The RMS level
meters (`_mic_level`, `_peer_level`) involve a floating-point square
root and only feed the UI, so they are omitted; the remaining float
state (scores, EWMA estimators, timestamps) is modelled exactly over
`ℚ`. -/

/-- One received PCM frame as int16 samples. -/
abbrev Chunk := List Int

/-- `queue.Queue(maxsize=80)`. -/
def PLAY_Q_MAXSIZE : Nat := 80

/-- `self._target_buffer_frames = 3`. -/
def TARGET_BUFFER_FRAMES : Nat := 3

/-- The client state the playback/receive paths touch: the jitter queue
(front = oldest), the toggles, the last played frame, the last receive
timestamp (`0` = nothing ever arrived) and the quality estimators. -/
structure PlayState where
  play_q : List Chunk
  sound_enabled : Bool
  last_play_chunk : Chunk
  last_recv_ts : ℚ
  underflow_score : ℚ
  overflow_score : ℚ
  jitter_ms : ℚ
  avg_gap_ms : ℚ
  loss_score : ℚ
  deriving DecidableEq, Repr

/-- Fit a frame into an output block of `frames` samples: zero-pad a
short frame, truncate a long one (`outdata[:len(arr)] = arr` /
`arr[:len(outdata)]`). -/
def fitFrames (chunk : Chunk) (frames : Nat) : List Int :=
  if chunk.length < frames then chunk ++ List.replicate (frames - chunk.length) 0
  else chunk.take frames

/-- `VoiceClient._play_cb`: returns the samples written to `outdata`
and the successor state. -/
def play_cb (now : ℚ) (frames : Nat) (s : PlayState) : List Int × PlayState :=
  if s.sound_enabled = false then (List.replicate frames 0, s)
  else if s.play_q.length < TARGET_BUFFER_FRAMES ∧ s.last_recv_ts > 0 then
    (List.replicate frames 0,
      { s with underflow_score := min 100 (s.underflow_score * (97/100) + 5/2) })
  else
    match s.play_q with
    | chunk :: rest =>
      (fitFrames chunk frames,
        { s with play_q := rest,
                 last_play_chunk := chunk,
                 underflow_score := max 0 (s.underflow_score * (96/100) - 1/5),
                 overflow_score := max 0 (s.overflow_score * (97/100) - 1/5) })
    | [] =>
      if s.last_play_chunk ≠ [] ∧ s.last_recv_ts > 0 ∧
          now - s.last_recv_ts < 12/100 then
        (fitFrames s.last_play_chunk frames,
          { s with underflow_score := min 100 (s.underflow_score * (97/100) + 3) })
      else
        (List.replicate frames 0,
          { s with underflow_score := min 100 (s.underflow_score * (97/100) + 3) })

/-- The estimator half of the `R|` branch of `VoiceClient._recv_loop`:
update the gap/jitter/loss estimators and stamp the receive time. -/
def recv_metrics (now : ℚ) (s : PlayState) : PlayState :=
  let s :=
    if s.last_recv_ts > 0 then
      let gap_ms := (now - s.last_recv_ts) * 1000
      let dev := |gap_ms - 20|
      { s with avg_gap_ms := (95/100) * s.avg_gap_ms + (5/100) * gap_ms,
               jitter_ms := (9/10) * s.jitter_ms + (1/10) * dev,
               loss_score := min 100 ((9/10) * s.loss_score +
                 10 * max 0 ((gap_ms - 35) / 20)) }
    else s
  { s with last_recv_ts := now }

/-- The enqueue half of the `R|` branch of `VoiceClient._recv_loop`:
`put_nowait`, on `queue.Full` first dropping the oldest frame, and
dropping the new frame only if the queue somehow still is full. -/
def recv_push (pcm : Chunk) (s : PlayState) : PlayState :=
  if s.play_q.length < PLAY_Q_MAXSIZE then
    { s with play_q := s.play_q ++ [pcm] }
  else
    let q' := s.play_q.drop 1
    if q'.length < PLAY_Q_MAXSIZE then
      { s with play_q := q' ++ [pcm],
               overflow_score := min 100 (s.overflow_score * (96/100) + 2) }
    else { s with play_q := q' }

/-- The audio branch of `VoiceClient._recv_loop` for one `R|` frame. -/
def recv_audio (now : ℚ) (pcm : Chunk) (s : PlayState) : PlayState :=
  recv_push pcm (recv_metrics now s)

/-- The interleavings of the receive loop and the playback callback. -/
inductive ClientStep where
  | recv (now : ℚ) (pcm : Chunk)
  | play (now : ℚ) (frames : Nat)

def runClientStep (s : PlayState) : ClientStep → PlayState
  | .recv now pcm => recv_audio now pcm s
  | .play now frames => (play_cb now frames s).2

/-- The state set up by `VoiceClient.__init__`/`_reset_runtime_metrics`. -/
def initPlayState : PlayState := ⟨[], true, [], 0, 0, 0, 0, 20, 0⟩

def runClient (steps : List ClientStep) : PlayState :=
  steps.foldl runClientStep initPlayState

theorem recv_metrics_play_q (now : ℚ) (s : PlayState) :
    (recv_metrics now s).play_q = s.play_q := by
  unfold recv_metrics
  dsimp only
  split <;> rfl

theorem recv_push_len {s : PlayState} (pcm : Chunk)
    (h : s.play_q.length ≤ PLAY_Q_MAXSIZE) :
    (recv_push pcm s).play_q.length ≤ PLAY_Q_MAXSIZE := by
  unfold recv_push
  split
  · next hlt =>
    simp only [List.length_append, List.length_singleton]
    omega
  · next hlt =>
    rw [not_lt] at hlt
    unfold PLAY_Q_MAXSIZE at *
    dsimp only
    split
    · simp only [List.length_append, List.length_drop, List.length_singleton]
      omega
    · simp only [List.length_drop]
      omega

theorem recv_audio_len {s : PlayState} (now : ℚ) (pcm : Chunk)
    (h : s.play_q.length ≤ PLAY_Q_MAXSIZE) :
    (recv_audio now pcm s).play_q.length ≤ PLAY_Q_MAXSIZE :=
  recv_push_len pcm (by rw [recv_metrics_play_q]; exact h)

theorem play_cb_len {s : PlayState} (now : ℚ) (frames : Nat)
    (h : s.play_q.length ≤ PLAY_Q_MAXSIZE) :
    ((play_cb now frames s).2).play_q.length ≤ PLAY_Q_MAXSIZE := by
  unfold play_cb
  split
  · exact h
  · split
    · exact h
    · split
      · next chunk rest heq =>
        dsimp only
        rw [heq] at h
        simp only [List.length_cons] at h
        omega
      · split
        · exact h
        · exact h

/-- C9: over any interleaving of received frames and playback callbacks
from the initial state, the jitter buffer never exceeds its 80-frame
capacity; below the pre-fill target with at least one frame ever
received, the playback callback writes pure silence; and a frame
arriving at a full buffer evicts the oldest buffered frame before being
enqueued. (All exception paths of the Python callback are caught and
write silence, so the embedded callback is total.) -/
theorem C9_jitter_buffer_spec :
    (∀ steps : List ClientStep,
      (runClient steps).play_q.length ≤ PLAY_Q_MAXSIZE) ∧
    (∀ (s : PlayState) (now : ℚ) (frames : Nat),
      s.play_q.length < TARGET_BUFFER_FRAMES → s.last_recv_ts > 0 →
      (play_cb now frames s).1 = List.replicate frames 0) ∧
    (∀ (s : PlayState) (now : ℚ) (pcm : Chunk),
      s.play_q.length = PLAY_Q_MAXSIZE →
      (recv_audio now pcm s).play_q = s.play_q.drop 1 ++ [pcm]) := by
  refine ⟨?_, ?_, ?_⟩
  · intro steps
    unfold runClient
    have : ∀ (l : List ClientStep) (s : PlayState),
        s.play_q.length ≤ PLAY_Q_MAXSIZE →
        (l.foldl runClientStep s).play_q.length ≤ PLAY_Q_MAXSIZE := by
      intro l
      induction l with
      | nil => intro s h; exact h
      | cons st t ih =>
        intro s h
        apply ih
        cases st with
        | recv now pcm => exact recv_audio_len now pcm h
        | play now frames => exact play_cb_len now frames h
    exact this steps initPlayState (by decide)
  · intro s now frames hlen hrecv
    unfold play_cb
    split
    · rfl
    · rw [if_pos ⟨hlen, hrecv⟩]
  · intro s now pcm hfull
    unfold recv_audio recv_push
    have hm := recv_metrics_play_q now s
    rw [if_neg (by rw [hm, hfull]; simp)]
    dsimp only
    rw [if_pos (by rw [hm, List.length_drop, hfull]; decide)]
    rw [hm]

theorem C9_jitter_buffer_spec_witness :
    (runClient [ClientStep.recv 1 [5], ClientStep.play 2 320]).play_q.length
        ≤ PLAY_Q_MAXSIZE ∧
    (play_cb 2 320 (runClient [ClientStep.recv 1 [5]])).1 =
      List.replicate 320 0 :=
  ⟨C9_jitter_buffer_spec.1 [ClientStep.recv 1 [5], ClientStep.play 2 320],
    C9_jitter_buffer_spec.2.1 (runClient [ClientStep.recv 1 [5]]) 2 320
      (by decide) (by decide)⟩

end Nodys.Client
